import Mathlib

/-!
Shallow embedding of the Auction repository's cascade/offer state machine
(`app/models.py`, `app/services/cascade.py`, `app/main.py`,
`app/handlers/user.py`), with theorems checking the natural-language
specification against the code.

Modelling conventions:
* time is a natural number (`datetime.utcnow()` becomes an explicit `now`
  argument; `timedelta(hours=settings.HOLD_HOURS)` becomes `cfg.holdDur`);
* each handler becomes a pure function `… → St → St × List Eff`, where
  `Eff` records the outward side effects (Telegram messages, post deletion,
  invoice creation) that the Python code performs via `bot` / MonoPay;
* the MonoPay gateway (`create_invoice`) is an external collaborator; its
  fresh invoice ids are modelled by the counter `St.nextInvoice`;
* SQLAlchemy rows become structures, the database becomes lists of rows,
  and `session.get` / `select ... where` become `find?` / `filter`.
-/

/-- Status enum `OfferStatus` from `app/models.py`. -/
inductive OfferStatus where
  | OFFERED
  | POSTPONED
  | PAID
  | DECLINED
  | EXPIRED
  | CANCELED
  deriving DecidableEq, Repr

/-- Status enum `LotStatus` from `app/models.py`. -/
inductive LotStatus where
  | DRAFT
  | ACTIVE
  | FINISHED
  deriving DecidableEq, Repr

/-- The `lots` row (`app/models.py`, class `Lot`), restricted to the fields
the cascade/payment logic reads. -/
structure Lot where
  id : Nat
  publicId : Nat
  minStep : Nat
  quantity : Nat
  status : LotStatus
  currentPrice : Nat
  channelId : Option Int
  channelMessageId : Option Nat
  deriving DecidableEq, Repr

/-- The `bids` row (`app/models.py`, class `Bid`). -/
structure Bid where
  id : Nat
  lotId : Nat
  userTgId : Nat
  amount : Nat
  deriving DecidableEq, Repr

/-- The `offers` row (`app/models.py`, class `Offer`), restricted to the
fields the cascade/payment logic reads or writes.  Invoice ids and page
urls are modelled as numbers handed out by the gateway counter. -/
structure Offer where
  id : Nat
  lotId : Nat
  userTgId : Nat
  offeredPrice : Nat
  rankIndex : Nat
  status : OfferStatus
  holdUntil : Option Nat
  invoiceId : Option Nat
  invoiceUrl : Option Nat
  paidAt : Option Nat
  reminderSent : Bool
  deriving DecidableEq, Repr

/-- Deployment configuration: `settings.HOLD_HOURS` and the hard-coded
`REMINDER_BEFORE_HOURS = 5` of `app/services/cascade.py`, both expressed in
the abstract time unit of the model. -/
structure Cfg where
  holdDur : Nat
  remindBefore : Nat
  deriving DecidableEq, Repr

/-- The persistent state: the three tables plus the id/invoice counters
(primary-key autoincrement and the external invoice generator). -/
structure St where
  lots : List Lot
  bids : List Bid
  offers : List Offer
  nextOfferId : Nat
  nextInvoice : Nat
  deriving DecidableEq, Repr

/-- Outward side effects performed through the bot / payment gateway. -/
inductive Eff where
  | notify (user : Nat)
  | remind (user : Nat)
  | deletePost (chat : Int) (msg : Nat)
  | invoice (offerId : Nat) (inv : Nat)
  | contactForm (user : Nat)
  deriving DecidableEq, Repr

/-- A MonoPay webhook event as read by `monopay_webhook` in `app/main.py`:
the JSON body's `status`, `invoiceId` and amount fields plus the
`?offer_id=` query parameter. -/
structure PayEvent where
  status : String
  invoiceId : Option Nat
  amount : Option Nat
  ccy : Option Nat
  offerId : Option Nat
  deriving DecidableEq, Repr

/-- Python truthiness of an optional integer (`if chat_id and msg_id`). -/
def truthyI : Option Int → Bool
  | none => false
  | some c => c != 0

/-- Python truthiness of an optional natural (`if chat_id and msg_id`). -/
def truthyN : Option Nat → Bool
  | none => false
  | some c => c != 0

/-- Test `Offer.status.in_([OFFERED, POSTPONED])`. -/
def statusActive (st : OfferStatus) : Bool :=
  st == OfferStatus.OFFERED || st == OfferStatus.POSTPONED

/-- The `count-by-status` query used throughout: number of offers of lot
`lid` whose status satisfies `P`. -/
def countS (offers : List Offer) (lid : Nat) (P : OfferStatus → Bool) : Nat :=
  offers.countP (fun o => o.lotId == lid && P o.status)

/-- Query `select(func.count()).where(Offer.lot_id==lid, Offer.status==PAID)`. -/
def paid_count (offers : List Offer) (lid : Nat) : Nat :=
  countS offers lid (· == OfferStatus.PAID)

/-- Query `select(func.count()).where(Offer.lot_id==lid, status in (OFFERED, POSTPONED))`. -/
def active_count (offers : List Offer) (lid : Nat) : Nat :=
  countS offers lid statusActive

/-- Offers of a lot that hold or consumed a unit: `OFFERED ∪ POSTPONED ∪ PAID`
(the quantity of spec invariant P1). -/
def held_count (offers : List Offer) (lid : Nat) : Nat :=
  countS offers lid (fun st => statusActive st || st == OfferStatus.PAID)

/-- Lookup `session.get(Offer, oid)`. -/
def find_offer (s : St) (oid : Nat) : Option Offer :=
  s.offers.find? (fun o => o.id == oid)

/-- Lookup `session.get(Lot, lid)`. -/
def find_lot (s : St) (lid : Nat) : Option Lot :=
  s.lots.find? (fun l => l.id == lid)

/-- Lookup `select(Lot).where(Lot.public_id == pub)`. -/
def find_lot_pub (s : St) (pub : Nat) : Option Lot :=
  s.lots.find? (fun l => l.publicId == pub)

/-- Row update by primary key. -/
def updateOffers (offers : List Offer) (oid : Nat) (f : Offer → Offer) : List Offer :=
  offers.map (fun o => if o.id == oid then f o else o)

/-- Helper `_lot_qty` from `app/main.py`: takes `lot.quantity` when it is a
positive integer, falling back to the default `1`. -/
def lot_qty (lot : Lot) : Nat :=
  if 0 < lot.quantity then lot.quantity else 1

/-- Helper `_lot_post_ids` from `app/main.py` combined with the truthiness test
`if chat_id and msg_id`: the channel-post coordinates when both are set
and nonzero. -/
def lot_post_ids (lot : Lot) : Option (Int × Nat) :=
  match lot.channelId, lot.channelMessageId with
  | some c, some m => if c != 0 && m != 0 then some (c, m) else none
  | _, _ => none

/-- Helper `_maybe_delete_lot_post` from `app/main.py`: delete the channel post
when `paid_count >= _lot_qty(lot)`. -/
def maybe_delete_lot_post (offers : List Offer) (lot : Lot) : List Eff :=
  if lot_qty lot ≤ paid_count offers lot.id then
    match lot_post_ids lot with
    | some (c, m) => [Eff.deletePost c m]
    | none => []
  else []

/-- Handler `monopay_webhook` from `app/main.py`, after the boundary layer
(signature check, JSON parsing) has accepted the request.  Mirrors the
handler body: drop a missing/zero `offer_id`, drop an unknown offer, drop
non-final and non-success statuses, and on `"success"` set the offer PAID
with the current timestamp, run the sold-out post-deletion check, and push
the contact form to the payer. -/
def monopay_webhook (now : Nat) (ev : PayEvent) (s : St) : St × List Eff :=
  match ev.offerId with
  | none => (s, [])
  | some oid =>
    if oid == 0 then (s, [])
    else
      match find_offer s oid with
      | none => (s, [])
      | some off =>
        if ev.status == "created" || ev.status == "processing" then (s, [])
        else if ev.status != "success" then (s, [])
        else
          let offers1 := updateOffers s.offers oid
            (fun o => { o with status := OfferStatus.PAID, paidAt := some now })
          let s1 := { s with offers := offers1 }
          let delEffs :=
            match find_lot s1 off.lotId with
            | some lot => maybe_delete_lot_post offers1 lot
            | none => []
          (s1, delEffs ++ [Eff.contactForm off.userTgId])

/-- Handler `cb_decline` from `app/handlers/user.py`: only existence and ownership
are checked before setting the status to DECLINED. -/
def cb_decline (user : Nat) (oid : Nat) (s : St) : St × List Eff :=
  match find_offer s oid with
  | none => (s, [])
  | some off =>
    if off.userTgId != user then (s, [])
    else
      let offers1 := updateOffers s.offers oid
        (fun o => { o with status := OfferStatus.DECLINED })
      ({ s with offers := offers1 }, [])

/-- Handler `cb_postpone` from `app/handlers/user.py`: only existence and ownership
are checked; the status becomes POSTPONED and a hold deadline is set only
when none is present. -/
def cb_postpone (cfg : Cfg) (now : Nat) (user : Nat) (oid : Nat) (s : St) : St × List Eff :=
  match find_offer s oid with
  | none => (s, [])
  | some off =>
    if off.userTgId != user then (s, [])
    else
      let offers1 := updateOffers s.offers oid
        (fun o => { o with
          status := OfferStatus.POSTPONED,
          holdUntil := match o.holdUntil with
            | none => some (now + cfg.holdDur)
            | some h => some h })
      ({ s with offers := offers1 }, [Eff.notify user])

/-- The sale branch of `start_entry` in `app/handlers/user.py`
(`/start sale_<pub>`): reject unavailable lots, reject when the PAID count
reaches the quantity, otherwise reuse the user's existing OFFERED/POSTPONED
offer or create a new one, and in either case store a freshly created
invoice on the offer. -/
def start_entry_sale (cfg : Cfg) (now : Nat) (user : Nat) (pub : Nat) (s : St) :
    St × List Eff :=
  match find_lot_pub s pub with
  | none => (s, [Eff.notify user])
  | some lot =>
    if lot.status != LotStatus.ACTIVE || lot.minStep != 0 then (s, [Eff.notify user])
    else if lot.quantity ≤ paid_count s.offers lot.id then (s, [Eff.notify user])
    else
      let existing := s.offers.find? (fun o =>
        o.lotId == lot.id && o.userTgId == user && statusActive o.status)
      match existing with
      | some ex =>
        let offers1 := updateOffers s.offers ex.id
          (fun o => { o with
            invoiceId := some s.nextInvoice, invoiceUrl := some s.nextInvoice })
        ({ s with offers := offers1, nextInvoice := s.nextInvoice + 1 },
         [Eff.invoice ex.id s.nextInvoice, Eff.notify user])
      | none =>
        let newOffer : Offer :=
          { id := s.nextOfferId, lotId := lot.id, userTgId := user,
            offeredPrice := lot.currentPrice, rankIndex := 1,
            status := OfferStatus.OFFERED,
            holdUntil := some (now + cfg.holdDur),
            invoiceId := some s.nextInvoice, invoiceUrl := some s.nextInvoice,
            paidAt := none, reminderSent := false }
        let s1 := { s with offers := s.offers ++ [newOffer],
                           nextOfferId := s.nextOfferId + 1,
                           nextInvoice := s.nextInvoice + 1 }
        (s1, [Eff.invoice s.nextOfferId s.nextInvoice, Eff.notify user])

/-- Best (maximum) bid amount of user `u` in a bid list
(`func.max(Bid.amount)` grouped by user). -/
def maxBidFor (bids : List Bid) (u : Nat) : Nat :=
  ((bids.filter (fun b => b.userTgId == u)).map (fun b => b.amount)).foldr max 0

/-- Stable descending insertion by best amount, realising
`order_by(desc("mx"))`; equal amounts keep their group order, giving the
model a fixed deterministic tie-break where the SQL leaves it to the
store. -/
def insertDesc (p : Nat × Nat) : List (Nat × Nat) → List (Nat × Nat)
  | [] => [p]
  | q :: rest => if q.2 < p.2 then p :: q :: rest else q :: insertDesc p rest

/-- Sort `(user, best_amount)` pairs by amount descending (stable). -/
def sortDesc (l : List (Nat × Nat)) : List (Nat × Nat) :=
  l.foldr insertDesc []

/-- The ranking query of `start_cascade`
(`select(Bid.user_tg_id, max(amount)).group_by(user).order_by(desc(mx))`):
one `(user, best_amount)` pair per distinct bidder, best amount first. -/
def rankingOf (bids : List Bid) : List (Nat × Nat) :=
  sortDesc (((bids.map (fun b => b.userTgId)).dedup).map
    (fun u => (u, maxBidFor bids u)))

/-- Query `select(Bid).where(Bid.lot_id == lid)`. -/
def bidsOf (s : St) (lid : Nat) : List Bid :=
  s.bids.filter (fun b => b.lotId == lid)

/-- The offer-creation loop of `start_cascade`: walk the ranking with the
running `rank`, offer-id and invoice counters; ranks up to the quantity
become OFFERED with a hold deadline, invoice and notification, later ranks
become CANCELED reserve candidates. -/
def mkCascade (cfg : Cfg) (now lid qty : Nat) :
    Nat → Nat → Nat → List (Nat × Nat) → List Offer × List Eff × Nat
  | _, _, inv, [] => ([], [], inv)
  | rank, oid, inv, (u, mx) :: rest =>
    if rank ≤ qty then
      let o : Offer :=
        { id := oid, lotId := lid, userTgId := u, offeredPrice := mx,
          rankIndex := rank, status := OfferStatus.OFFERED,
          holdUntil := some (now + cfg.holdDur),
          invoiceId := some inv, invoiceUrl := some inv,
          paidAt := none, reminderSent := false }
      let r := mkCascade cfg now lid qty (rank + 1) (oid + 1) (inv + 1) rest
      (o :: r.1, Eff.invoice oid inv :: Eff.notify u :: r.2.1, r.2.2)
    else
      let o : Offer :=
        { id := oid, lotId := lid, userTgId := u, offeredPrice := mx,
          rankIndex := rank, status := OfferStatus.CANCELED,
          holdUntil := none, invoiceId := none, invoiceUrl := none,
          paidAt := none, reminderSent := false }
      let r := mkCascade cfg now lid qty (rank + 1) (oid + 1) inv rest
      (o :: r.1, r.2.1, r.2.2)

/-- Row update of a lot by primary key. -/
def updateLots (lots : List Lot) (lid : Nat) (f : Lot → Lot) : List Lot :=
  lots.map (fun l => if l.id == lid then f l else l)

/-- Operation `start_cascade` from `app/services/cascade.py`: mark the lot FINISHED;
stop there for fixed-price lots (`min_step == 0`) and for lots without
bids; otherwise create one offer per ranked bidder as in `mkCascade`. -/
def start_cascade (cfg : Cfg) (now : Nat) (lid : Nat) (s : St) : St × List Eff :=
  match find_lot s lid with
  | none => (s, [])
  | some lot =>
    let lots1 := updateLots s.lots lid (fun l => { l with status := LotStatus.FINISHED })
    if lot.minStep == 0 then ({ s with lots := lots1 }, [])
    else
      let rk := rankingOf (bidsOf s lid)
      match rk with
      | [] => ({ s with lots := lots1 }, [])
      | _ =>
        let r := mkCascade cfg now lid lot.quantity 1 s.nextOfferId s.nextInvoice rk
        ({ s with lots := lots1, offers := s.offers ++ r.1,
                  nextOfferId := s.nextOfferId + rk.length, nextInvoice := r.2.2 },
         r.2.1)

/-- Reminder condition of `advance_cascade` step 1: active status, a hold
deadline, reminder not yet sent, and
`0 < hold_until - now <= REMINDER_BEFORE_HOURS`. -/
def remind_due (cfg : Cfg) (now : Nat) (o : Offer) : Bool :=
  statusActive o.status && !o.reminderSent &&
    (match o.holdUntil with
     | some h => now < h && h ≤ now + cfg.remindBefore
     | none => false)

/-- Step 1 of `advance_cascade`: send one-time reminders and mark them sent. -/
def remind_pass (cfg : Cfg) (now : Nat) (offers : List Offer) : List Offer :=
  offers.map (fun o => if remind_due cfg now o then { o with reminderSent := true } else o)

/-- Reminder effects of step 1. -/
def remind_effs (cfg : Cfg) (now : Nat) (offers : List Offer) : List Eff :=
  (offers.filter (remind_due cfg now)).map (fun o => Eff.remind o.userTgId)

/-- Expiry condition of `advance_cascade` step 2: active status with
`hold_until < now`. -/
def expire_due (now : Nat) (o : Offer) : Bool :=
  statusActive o.status &&
    (match o.holdUntil with
     | some h => h < now
     | none => false)

/-- Step 2 of `advance_cascade`: overdue active offers become EXPIRED. -/
def expire_pass (now : Nat) (offers : List Offer) : List Offer :=
  offers.map (fun o => if expire_due now o then { o with status := OfferStatus.EXPIRED } else o)

/-- Query `select(Offer).where(lot_id==lid, status==CANCELED)`. -/
def canceled_of (offers : List Offer) (lid : Nat) : List Offer :=
  offers.filter (fun o => o.lotId == lid && o.status == OfferStatus.CANCELED)

/-- Stable ascending insertion by `rank_index` (`order_by(Offer.rank_index)`). -/
def insertRank (o : Offer) : List Offer → List Offer
  | [] => [o]
  | q :: rest => if o.rankIndex < q.rankIndex then o :: q :: rest else q :: insertRank o rest

/-- Sort offers by `rank_index` ascending (stable). -/
def sortRank (l : List Offer) : List Offer :=
  l.foldr insertRank []

/-- Promotion of one selected offer in step 3 of `advance_cascade`: status
OFFERED, a fresh hold deadline, and a newly created invoice.  The
`reminder_sent` flag is not touched by the code. -/
def promoteOne (cfg : Cfg) (now inv : Nat) (o : Offer) : Offer :=
  { o with status := OfferStatus.OFFERED,
           holdUntil := some (now + cfg.holdDur),
           invoiceId := some inv, invoiceUrl := some inv }

/-- Apply the promotion loop to a single row: rows whose id appears in the
selected list `ids` are promoted (the `k`-th selected row takes the `k`-th
fresh invoice), all others are untouched. -/
def promoteUpd (cfg : Cfg) (now inv0 : Nat) (ids : List Nat) (o : Offer) : Offer :=
  match ids.findIdx? (fun i => i == o.id) with
  | some k => promoteOne cfg now (inv0 + k) o
  | none => o

/-- The lowest-rank CANCELED offers selected by the promotion query
(`order_by(rank_index)` then `[:need]`). -/
def promo_sel (offers : List Offer) (lid need : Nat) : List Offer :=
  (sortRank (canceled_of offers lid)).take need

/-- Step 3 of `advance_cascade` for one lot: emit the sold-out post-deletion
backup, and for FINISHED lots promote the lowest-rank CANCELED offers until
the active count matches the remaining quantity. -/
def promo_step (cfg : Cfg) (now : Nat) (acc : List Offer × Nat × List Eff) (lot : Lot) :
    List Offer × Nat × List Eff :=
  let offers := acc.1
  let inv := acc.2.1
  let effs := acc.2.2
  let paidCnt := paid_count offers lot.id
  let delEffs :=
    if truthyI lot.channelId && truthyN lot.channelMessageId && decide (lot.quantity ≤ paidCnt)
    then [Eff.deletePost (lot.channelId.getD 0) (lot.channelMessageId.getD 0)]
    else []
  if lot.status != LotStatus.FINISHED then (offers, inv, effs ++ delEffs)
  else
    let remaining := lot.quantity - paidCnt
    let activeCnt := active_count offers lot.id
    if activeCnt < remaining then
      let need := remaining - activeCnt
      let sel := promo_sel offers lot.id need
      let ids := sel.map (fun o => o.id)
      let offers1 := offers.map (promoteUpd cfg now inv ids)
      let promoEffs := (sel.enum.map (fun p =>
        [Eff.invoice p.2.id (inv + p.1), Eff.notify p.2.userTgId])).flatten
      (offers1, inv + sel.length, effs ++ delEffs ++ promoEffs)
    else (offers, inv, effs ++ delEffs)

/-- Operation `advance_cascade` from `app/services/cascade.py`: the periodic
reconciliation sweep — reminders, expiry, then per-lot promotion and the
sold-out post-deletion backup. -/
def advance_cascade (cfg : Cfg) (now : Nat) (s : St) : St × List Eff :=
  let o1 := remind_pass cfg now s.offers
  let e1 := remind_effs cfg now s.offers
  let o2 := expire_pass now o1
  let r := s.lots.foldl (promo_step cfg now) (o2, s.nextInvoice, [])
  ({ s with offers := r.1, nextInvoice := r.2.1 }, e1 ++ r.2.2)

/-! ### Generic list lemmas used by the invariant proofs -/

theorem map_id_of_fix {α : Type} (l : List α) (f : α → α) (h : ∀ x ∈ l, f x = x) :
    l.map f = l := by
  induction l with
  | nil => rfl
  | cons a t ih =>
    simp only [List.map_cons, h a (by simp)]
    rw [ih (fun x hx => h x (by simp [hx]))]

theorem countP_map_eq_of_pred {α : Type} (l : List α) (f : α → α) (p : α → Bool)
    (h : ∀ x ∈ l, p (f x) = p x) : (l.map f).countP p = l.countP p := by
  induction l with
  | nil => rfl
  | cons a t ih =>
    simp only [List.map_cons, List.countP_cons, h a (by simp)]
    rw [ih (fun x hx => h x (by simp [hx]))]

theorem countP_map_le_of_pred {α : Type} (l : List α) (f : α → α) (p : α → Bool)
    (h : ∀ x ∈ l, p (f x) = true → p x = true) :
    (l.map f).countP p ≤ l.countP p := by
  induction l with
  | nil => exact Nat.le_refl 0
  | cons a t ih =>
    simp only [List.map_cons, List.countP_cons]
    have ht := ih (fun x hx => h x (by simp [hx]))
    by_cases hpa : p (f a) = true
    · rw [if_pos hpa, if_pos (h a (by simp) hpa)]
      omega
    · rw [if_neg hpa]
      have hb : (if p a = true then 1 else 0) = 1 ∨ (if p a = true then 1 else 0) = 0 := by
        split
        · exact Or.inl rfl
        · exact Or.inr rfl
      omega

theorem countP_map_update {α : Type} [DecidableEq α] (l : List α) (f : α → α)
    (p : α → Bool) (T : List α)
    (h : ∀ x ∈ l, (x ∈ T → p (f x) = true ∧ p x = false) ∧ (x ∉ T → f x = x)) :
    (l.map f).countP p = l.countP p + l.countP (fun x => decide (x ∈ T)) := by
  induction l with
  | nil => rfl
  | cons a t ih =>
    have ht := ih (fun x hx => h x (by simp [hx]))
    simp only [List.map_cons, List.countP_cons, ht]
    by_cases haT : a ∈ T
    · have h1 := (h a (by simp)).1 haT
      rw [if_pos h1.1, if_neg (by simp [h1.2]), if_pos (by simp [haT])]
      omega
    · rw [(h a (by simp)).2 haT]
      have hm : (if decide (a ∈ T) = true then 1 else 0) = 0 := by simp [haT]
      omega

theorem countP_mem_eq_length {α : Type} [DecidableEq α] (l T : List α)
    (hTl : ∀ x ∈ T, x ∈ l) (hT : T.Nodup) (hl : l.Nodup) :
    l.countP (fun x => decide (x ∈ T)) = T.length := by
  rw [List.countP_eq_length_filter]
  have hperm : (l.filter (fun x => decide (x ∈ T))).Perm T := by
    rw [List.perm_ext_iff_of_nodup (hl.filter _) hT]
    intro a
    simp only [List.mem_filter, decide_eq_true_eq]
    constructor
    · exact fun hp => hp.2
    · exact fun hp => ⟨hTl a hp, hp⟩
  exact hperm.length_eq

theorem filter_map_eq_filter {α : Type} (l : List α) (f : α → α) (p : α → Bool)
    (h : ∀ x ∈ l, p (f x) = p x ∧ (p x = true → f x = x)) :
    (l.map f).filter p = l.filter p := by
  induction l with
  | nil => rfl
  | cons a t ih =>
    have ht := ih (fun x hx => h x (by simp [hx]))
    have ha := h a (by simp)
    simp only [List.map_cons, List.filter_cons, ha.1]
    rcases hpa : p a with _ | _
    · simpa [hpa] using ht
    · simp [hpa, ha.2 hpa, ht]

theorem mem_map_of_fix {α : Type} (l : List α) (f : α → α) (x : α)
    (hx : x ∈ l) (hfx : f x = x) : x ∈ l.map f := by
  have := List.mem_map_of_mem f hx
  rwa [hfx] at this

/-! ### Sorting lemmas for the rank / best-amount orders -/

theorem insertRank_perm (o : Offer) (l : List Offer) :
    (insertRank o l).Perm (o :: l) := by
  induction l with
  | nil => exact List.Perm.refl _
  | cons q t ih =>
    unfold insertRank
    split
    · exact List.Perm.refl _
    · exact (List.Perm.cons q ih).trans (List.Perm.swap o q t)

theorem sortRank_perm (l : List Offer) : (sortRank l).Perm l := by
  induction l with
  | nil => exact List.Perm.refl _
  | cons q t ih =>
    exact (insertRank_perm q (sortRank t)).trans (List.Perm.cons q ih)

theorem mem_sortRank {o : Offer} {l : List Offer} : o ∈ sortRank l ↔ o ∈ l :=
  (sortRank_perm l).mem_iff

theorem insertRank_sorted (o : Offer) (l : List Offer)
    (h : l.Pairwise (fun a b => a.rankIndex ≤ b.rankIndex)) :
    (insertRank o l).Pairwise (fun a b => a.rankIndex ≤ b.rankIndex) := by
  induction l with
  | nil => simp [insertRank]
  | cons q t ih =>
    unfold insertRank
    split
    · refine List.Pairwise.cons ?_ h
      intro b hb
      rcases List.mem_cons.mp hb with hb1 | hb1
      · subst hb1
        omega
      · have := (List.pairwise_cons.mp h).1 b hb1
        omega
    · have hqt := List.pairwise_cons.mp h
      refine List.Pairwise.cons ?_ (ih hqt.2)
      intro b hb
      rcases List.mem_cons.mp ((insertRank_perm o t).mem_iff.mp hb) with hb1 | hb1
      · subst hb1
        omega
      · exact hqt.1 b hb1

theorem sortRank_sorted (l : List Offer) :
    (sortRank l).Pairwise (fun a b => a.rankIndex ≤ b.rankIndex) := by
  induction l with
  | nil => simp [sortRank]
  | cons q t ih => exact insertRank_sorted q (sortRank t) ih

theorem insertDesc_perm (p : Nat × Nat) (l : List (Nat × Nat)) :
    (insertDesc p l).Perm (p :: l) := by
  induction l with
  | nil => exact List.Perm.refl _
  | cons q t ih =>
    unfold insertDesc
    split
    · exact List.Perm.refl _
    · exact (List.Perm.cons q ih).trans (List.Perm.swap p q t)

theorem sortDesc_perm (l : List (Nat × Nat)) : (sortDesc l).Perm l := by
  induction l with
  | nil => exact List.Perm.refl _
  | cons q t ih =>
    exact (insertDesc_perm q (sortDesc t)).trans (List.Perm.cons q ih)

theorem insertDesc_sorted (p : Nat × Nat) (l : List (Nat × Nat))
    (h : l.Pairwise (fun a b => b.2 ≤ a.2)) :
    (insertDesc p l).Pairwise (fun a b => b.2 ≤ a.2) := by
  induction l with
  | nil => simp [insertDesc]
  | cons q t ih =>
    unfold insertDesc
    split
    · refine List.Pairwise.cons ?_ h
      intro b hb
      rcases List.mem_cons.mp hb with hb1 | hb1
      · subst hb1
        omega
      · have := (List.pairwise_cons.mp h).1 b hb1
        omega
    · have hqt := List.pairwise_cons.mp h
      refine List.Pairwise.cons ?_ (ih hqt.2)
      intro b hb
      rcases List.mem_cons.mp ((insertDesc_perm p t).mem_iff.mp hb) with hb1 | hb1
      · subst hb1
        omega
      · exact hqt.1 b hb1

theorem sortDesc_sorted (l : List (Nat × Nat)) :
    (sortDesc l).Pairwise (fun a b => b.2 ≤ a.2) := by
  induction l with
  | nil => simp [sortDesc]
  | cons q t ih => exact insertDesc_sorted q (sortDesc t) ih

/-! ### Promotion-pass characterization -/

/-- Well-formedness: offer primary keys are unique. -/
def idsNodup (offers : List Offer) : Prop :=
  (offers.map (fun o => o.id)).Nodup

theorem eq_of_mem_of_nodup_map {l : List Offer} (hnd : idsNodup l) {a b : Offer}
    (ha : a ∈ l) (hb : b ∈ l) (h : a.id = b.id) : a = b := by
  induction l with
  | nil => cases ha
  | cons x t ih =>
    have hx : x.id ∉ t.map (fun o => o.id) := (List.nodup_cons.mp hnd).1
    have ht : idsNodup t := (List.nodup_cons.mp hnd).2
    rcases List.mem_cons.mp ha with ha1 | ha1 <;> rcases List.mem_cons.mp hb with hb1 | hb1
    · rw [ha1, hb1]
    · subst ha1
      exact absurd (h.symm ▸ (List.mem_map_of_mem (fun o => o.id) hb1)) hx
    · subst hb1
      exact absurd (h ▸ (List.mem_map_of_mem (fun o => o.id) ha1)) hx
    · exact ih ht ha1 hb1

theorem promoteUpd_not_mem (cfg : Cfg) (now inv0 : Nat) (ids : List Nat) (o : Offer)
    (h : o.id ∉ ids) : promoteUpd cfg now inv0 ids o = o := by
  unfold promoteUpd
  have hf : ids.findIdx? (fun i => i == o.id) = none := by
    rw [List.findIdx?_eq_none_iff]
    intro x hx
    simp only [beq_eq_false_iff_ne]
    exact fun e => h (e ▸ hx)
  simp [hf]

theorem promoteUpd_mem (cfg : Cfg) (now inv0 : Nat) (ids : List Nat) (o : Offer)
    (h : o.id ∈ ids) :
    ∃ k, promoteUpd cfg now inv0 ids o = promoteOne cfg now (inv0 + k) o := by
  unfold promoteUpd
  cases hf : ids.findIdx? (fun i => i == o.id) with
  | none =>
    have := List.findIdx?_eq_none_iff.mp hf o.id h
    simp at this
  | some k => exact ⟨k, rfl⟩

theorem promo_sel_subset (offers : List Offer) (lid need : Nat) :
    ∀ x ∈ promo_sel offers lid need, x ∈ offers := by
  intro x hx
  have h1 : x ∈ sortRank (canceled_of offers lid) := List.mem_of_mem_take hx
  exact List.mem_of_mem_filter (mem_sortRank.mp h1)

theorem promo_sel_spec (offers : List Offer) (lid need : Nat) :
    ∀ x ∈ promo_sel offers lid need, x.lotId = lid ∧ x.status = OfferStatus.CANCELED := by
  intro x hx
  have h1 : x ∈ sortRank (canceled_of offers lid) := List.mem_of_mem_take hx
  have h2 := List.of_mem_filter (mem_sortRank.mp h1)
  simp only [Bool.and_eq_true, beq_iff_eq] at h2
  exact h2

theorem promo_sel_nodup (offers : List Offer) (lid need : Nat) (hnd : idsNodup offers) :
    (promo_sel offers lid need).Nodup := by
  have h0 : offers.Nodup := hnd.of_map _
  have h1 : (canceled_of offers lid).Nodup := h0.filter _
  have h2 : (sortRank (canceled_of offers lid)).Nodup :=
    (sortRank_perm (canceled_of offers lid)).nodup_iff.mpr h1
  exact (List.take_sublist _ _).nodup h2

theorem mem_sel_of_id_mem {offers : List Offer} (hnd : idsNodup offers)
    (lid need : Nat) {o : Offer} (ho : o ∈ offers)
    (h : o.id ∈ (promo_sel offers lid need).map (fun x => x.id)) :
    o ∈ promo_sel offers lid need := by
  rcases List.mem_map.mp h with ⟨x, hx, hxe⟩
  have : x = o := eq_of_mem_of_nodup_map hnd (promo_sel_subset offers lid need x hx) ho hxe
  exact this ▸ hx

theorem promoteUpd_fix_of_not_sel (cfg : Cfg) (now inv0 : Nat) (offers : List Offer)
    (hnd : idsNodup offers) (lid need : Nat) {o : Offer} (ho : o ∈ offers)
    (h : o ∉ promo_sel offers lid need) :
    promoteUpd cfg now inv0 ((promo_sel offers lid need).map (fun x => x.id)) o = o := by
  refine promoteUpd_not_mem cfg now inv0 _ o (fun hm => h ?_)
  exact mem_sel_of_id_mem hnd lid need ho hm

theorem promoteUpd_id_eq (cfg : Cfg) (now inv0 : Nat) (ids : List Nat) (o : Offer) :
    (promoteUpd cfg now inv0 ids o).id = o.id := by
  unfold promoteUpd
  cases ids.findIdx? (fun i => i == o.id) <;> rfl

theorem promoteUpd_lotId_eq (cfg : Cfg) (now inv0 : Nat) (ids : List Nat) (o : Offer) :
    (promoteUpd cfg now inv0 ids o).lotId = o.lotId := by
  unfold promoteUpd
  cases ids.findIdx? (fun i => i == o.id) <;> rfl

theorem promo_map_ids (cfg : Cfg) (now inv0 : Nat) (ids : List Nat) (offers : List Offer) :
    (offers.map (promoteUpd cfg now inv0 ids)).map (fun o => o.id)
      = offers.map (fun o => o.id) := by
  rw [List.map_map]
  exact List.map_congr_left (fun o _ => promoteUpd_id_eq cfg now inv0 ids o)

theorem promo_map_active (cfg : Cfg) (now inv0 : Nat) (offers : List Offer)
    (lid need : Nat) (hnd : idsNodup offers) :
    active_count (offers.map
      (promoteUpd cfg now inv0 ((promo_sel offers lid need).map (fun x => x.id)))) lid
      = active_count offers lid + (promo_sel offers lid need).length := by
  unfold active_count countS
  rw [countP_map_update _ _ _ (promo_sel offers lid need) ?_]
  · rw [countP_mem_eq_length offers (promo_sel offers lid need)
      (promo_sel_subset offers lid need) (promo_sel_nodup offers lid need hnd)
      (hnd.of_map _)]
  · intro o ho
    constructor
    · intro hosel
      have hspec := promo_sel_spec offers lid need o hosel
      constructor
      · rcases promoteUpd_mem cfg now inv0 _ o
          (List.mem_map_of_mem (fun x => x.id) hosel) with ⟨k, hk⟩
        rw [hk]
        simp [promoteOne, statusActive, hspec.1]
      · simp [hspec.1, hspec.2, statusActive]
    · intro hosel
      exact promoteUpd_fix_of_not_sel cfg now inv0 offers hnd lid need ho hosel

theorem promo_map_countS_pres (cfg : Cfg) (now inv0 : Nat) (offers : List Offer)
    (lid need : Nat) (hnd : idsNodup offers) (lid' : Nat) (P : OfferStatus → Bool)
    (hP1 : P OfferStatus.CANCELED = false) (hP2 : P OfferStatus.OFFERED = false) :
    countS (offers.map
      (promoteUpd cfg now inv0 ((promo_sel offers lid need).map (fun x => x.id)))) lid' P
      = countS offers lid' P := by
  unfold countS
  apply countP_map_eq_of_pred
  intro o ho
  by_cases hosel : o ∈ promo_sel offers lid need
  · have hspec := promo_sel_spec offers lid need o hosel
    rcases promoteUpd_mem cfg now inv0 _ o
      (List.mem_map_of_mem (fun x => x.id) hosel) with ⟨k, hk⟩
    rw [hk]
    simp [promoteOne, hspec.2, hP1, hP2]
  · rw [promoteUpd_fix_of_not_sel cfg now inv0 offers hnd lid need ho hosel]

theorem promo_map_countS_other (cfg : Cfg) (now inv0 : Nat) (offers : List Offer)
    (lid need : Nat) (hnd : idsNodup offers) (lid' : Nat) (P : OfferStatus → Bool)
    (hne : lid' ≠ lid) :
    countS (offers.map
      (promoteUpd cfg now inv0 ((promo_sel offers lid need).map (fun x => x.id)))) lid' P
      = countS offers lid' P := by
  unfold countS
  apply countP_map_eq_of_pred
  intro o ho
  by_cases hosel : o ∈ promo_sel offers lid need
  · have hspec := promo_sel_spec offers lid need o hosel
    rcases promoteUpd_mem cfg now inv0 _ o
      (List.mem_map_of_mem (fun x => x.id) hosel) with ⟨k, hk⟩
    rw [hk]
    have h0 : (lid == lid') = false := by
      simp [Ne.symm hne]
    simp [promoteOne, hspec.1, h0]
  · rw [promoteUpd_fix_of_not_sel cfg now inv0 offers hnd lid need ho hosel]

theorem promo_map_canceled_other (cfg : Cfg) (now inv0 : Nat) (offers : List Offer)
    (lid need : Nat) (hnd : idsNodup offers) (lid' : Nat) (hne : lid' ≠ lid) :
    canceled_of (offers.map
      (promoteUpd cfg now inv0 ((promo_sel offers lid need).map (fun x => x.id)))) lid'
      = canceled_of offers lid' := by
  unfold canceled_of
  apply filter_map_eq_filter
  intro o ho
  by_cases hosel : o ∈ promo_sel offers lid need
  · have hspec := promo_sel_spec offers lid need o hosel
    rcases promoteUpd_mem cfg now inv0 _ o
      (List.mem_map_of_mem (fun x => x.id) hosel) with ⟨k, hk⟩
    rw [hk]
    have h0 : (lid == lid') = false := by
      simp [Ne.symm hne]
    constructor
    · simp [promoteOne, hspec.1, h0]
    · intro hfalse
      simp [hspec.1, h0] at hfalse
  · rw [promoteUpd_fix_of_not_sel cfg now inv0 offers hnd lid need ho hosel]
    exact ⟨rfl, fun _ => rfl⟩

theorem promo_map_canceled_empty (cfg : Cfg) (now inv0 : Nat) (offers : List Offer)
    (lid need : Nat) (hnd : idsNodup offers)
    (hlen : (canceled_of offers lid).length ≤ need) :
    canceled_of (offers.map
      (promoteUpd cfg now inv0 ((promo_sel offers lid need).map (fun x => x.id)))) lid
      = [] := by
  have hslen : (sortRank (canceled_of offers lid)).length ≤ need :=
    (sortRank_perm (canceled_of offers lid)).length_eq ▸ hlen
  have hsel : promo_sel offers lid need = sortRank (canceled_of offers lid) :=
    List.take_of_length_le hslen
  unfold canceled_of
  rw [List.filter_eq_nil_iff]
  intro o' ho'
  rcases List.mem_map.mp ho' with ⟨o, ho, rfl⟩
  by_cases hosel : o ∈ promo_sel offers lid need
  · rcases promoteUpd_mem cfg now inv0 _ o
      (List.mem_map_of_mem (fun x => x.id) hosel) with ⟨k, hk⟩
    rw [hk]
    simp [promoteOne]
  · rw [promoteUpd_fix_of_not_sel cfg now inv0 offers hnd lid need ho hosel]
    by_cases hc : (o.lotId == lid && o.status == OfferStatus.CANCELED) = true
    · have hc1 := hc
      simp only [Bool.and_eq_true, beq_iff_eq] at hc1
      have homem : o ∈ sortRank (canceled_of offers lid) :=
        mem_sortRank.mpr (List.mem_filter.mpr ⟨ho, hc⟩)
      exact absurd (hsel.symm ▸ homem) hosel
    · simpa using hc

theorem promo_sel_length (offers : List Offer) (lid need : Nat) :
    (promo_sel offers lid need).length = min need (canceled_of offers lid).length := by
  unfold promo_sel
  rw [List.length_take, (sortRank_perm (canceled_of offers lid)).length_eq]

/-- A lot for which the promotion pass has nothing left to do: not
cascade-relevant, or the active offers already cover the remaining
quantity, or no CANCELED reserve candidates are left. -/
def lotStable (offers : List Offer) (lot : Lot) : Prop :=
  lot.status ≠ LotStatus.FINISHED
  ∨ lot.quantity - paid_count offers lot.id ≤ active_count offers lot.id
  ∨ canceled_of offers lot.id = []

theorem promo_step_ids (cfg : Cfg) (now : Nat) (acc : List Offer × Nat × List Eff)
    (lot : Lot) :
    ((promo_step cfg now acc lot).1).map (fun o => o.id) = acc.1.map (fun o => o.id) := by
  unfold promo_step
  split
  · rfl
  · dsimp only
    split
    · exact promo_map_ids ..
    · rfl

theorem promo_step_countS_other (cfg : Cfg) (now : Nat)
    (acc : List Offer × Nat × List Eff) (lot : Lot) (hnd : idsNodup acc.1)
    (lid' : Nat) (P : OfferStatus → Bool) (hne : lid' ≠ lot.id) :
    countS (promo_step cfg now acc lot).1 lid' P = countS acc.1 lid' P := by
  unfold promo_step
  split
  · rfl
  · dsimp only
    split
    · exact promo_map_countS_other cfg now acc.2.1 acc.1 lot.id _ hnd lid' P hne
    · rfl

theorem promo_step_canceled_other (cfg : Cfg) (now : Nat)
    (acc : List Offer × Nat × List Eff) (lot : Lot) (hnd : idsNodup acc.1)
    (lid' : Nat) (hne : lid' ≠ lot.id) :
    canceled_of (promo_step cfg now acc lot).1 lid' = canceled_of acc.1 lid' := by
  unfold promo_step
  split
  · rfl
  · dsimp only
    split
    · exact promo_map_canceled_other cfg now acc.2.1 acc.1 lot.id _ hnd lid' hne
    · rfl

theorem promo_step_stable_other (cfg : Cfg) (now : Nat)
    (acc : List Offer × Nat × List Eff) (lot : Lot) (hnd : idsNodup acc.1)
    (lot' : Lot) (hne : lot'.id ≠ lot.id) (hst : lotStable acc.1 lot') :
    lotStable (promo_step cfg now acc lot).1 lot' := by
  unfold lotStable at hst ⊢
  rcases hst with h | h | h
  · exact Or.inl h
  · refine Or.inr (Or.inl ?_)
    unfold paid_count active_count at h ⊢
    rw [promo_step_countS_other cfg now acc lot hnd lot'.id _ hne,
        promo_step_countS_other cfg now acc lot hnd lot'.id _ hne]
    exact h
  · exact Or.inr (Or.inr
      ((promo_step_canceled_other cfg now acc lot hnd lot'.id hne).trans h))

theorem promo_step_stable_self (cfg : Cfg) (now : Nat)
    (acc : List Offer × Nat × List Eff) (lot : Lot) (hnd : idsNodup acc.1) :
    lotStable (promo_step cfg now acc lot).1 lot := by
  unfold promo_step lotStable
  split
  · rename_i hfin
    simp only [bne_iff_ne, ne_eq] at hfin
    exact Or.inl hfin
  · dsimp only
    split
    · rename_i hlt
      dsimp only
      by_cases hlen : (canceled_of acc.1 lot.id).length
          ≤ lot.quantity - paid_count acc.1 lot.id - active_count acc.1 lot.id
      · refine Or.inr (Or.inr ?_)
        exact promo_map_canceled_empty cfg now acc.2.1 acc.1 lot.id _ hnd hlen
      · refine Or.inr (Or.inl ?_)
        have hact := promo_map_active cfg now acc.2.1 acc.1 lot.id
          (lot.quantity - paid_count acc.1 lot.id - active_count acc.1 lot.id) hnd
        have hpaid : paid_count (acc.1.map
            (promoteUpd cfg now acc.2.1 ((promo_sel acc.1 lot.id
              (lot.quantity - paid_count acc.1 lot.id - active_count acc.1 lot.id)).map
                (fun x => x.id)))) lot.id = paid_count acc.1 lot.id :=
          promo_map_countS_pres cfg now acc.2.1 acc.1 lot.id
            (lot.quantity - paid_count acc.1 lot.id - active_count acc.1 lot.id) hnd lot.id
            (· == OfferStatus.PAID) rfl rfl
        have hsl := promo_sel_length acc.1 lot.id
          (lot.quantity - paid_count acc.1 lot.id - active_count acc.1 lot.id)
        rw [hpaid, hact, hsl]
        omega
    · rename_i hge
      exact Or.inr (Or.inl (Nat.le_of_not_lt hge))

theorem promo_step_id_of_stable (cfg : Cfg) (now : Nat)
    (acc : List Offer × Nat × List Eff) (lot : Lot) (hst : lotStable acc.1 lot) :
    (promo_step cfg now acc lot).1 = acc.1 ∧ (promo_step cfg now acc lot).2.1 = acc.2.1 := by
  unfold promo_step
  split
  · exact ⟨rfl, rfl⟩
  · dsimp only
    split
    · rename_i hfin hlt
      rcases hst with h | h | h
      · simp only [bne_iff_ne, ne_eq, Decidable.not_not] at hfin
        exact absurd hfin h
      · exact absurd hlt (Nat.not_lt.mpr h)
      · have hsel : promo_sel acc.1 lot.id
            (lot.quantity - paid_count acc.1 lot.id - active_count acc.1 lot.id) = [] := by
          unfold promo_sel
          rw [h]
          simp [sortRank]
        rw [hsel]
        constructor
        · exact map_id_of_fix _ _ (fun o _ => promoteUpd_not_mem cfg now acc.2.1 _ o (by simp))
        · simp
    · exact ⟨rfl, rfl⟩

theorem promo_step_noRemind (cfg : Cfg) (now : Nat) (acc : List Offer × Nat × List Eff)
    (lot : Lot) (hnd : idsNodup acc.1) (hcfg : cfg.remindBefore < cfg.holdDur)
    (h : ∀ o ∈ acc.1, remind_due cfg now o = false) :
    ∀ o ∈ (promo_step cfg now acc lot).1, remind_due cfg now o = false := by
  unfold promo_step
  split
  · exact h
  · dsimp only
    split
    · intro o ho
      rcases List.mem_map.mp ho with ⟨x, hx, rfl⟩
      by_cases hxsel : x ∈ promo_sel acc.1 lot.id
          (lot.quantity - paid_count acc.1 lot.id - active_count acc.1 lot.id)
      · rcases promoteUpd_mem cfg now acc.2.1 _ x
          (List.mem_map_of_mem (fun o => o.id) hxsel) with ⟨k, hk⟩
        rw [hk]
        have h2 : ¬(now + cfg.holdDur ≤ now + cfg.remindBefore) := by omega
        simp [remind_due, promoteOne, statusActive, h2]
      · rw [promoteUpd_fix_of_not_sel cfg now acc.2.1 acc.1 hnd lot.id _ hx hxsel]
        exact h x hx
    · exact h

theorem promo_step_noExpire (cfg : Cfg) (now : Nat) (acc : List Offer × Nat × List Eff)
    (lot : Lot) (hnd : idsNodup acc.1)
    (h : ∀ o ∈ acc.1, expire_due now o = false) :
    ∀ o ∈ (promo_step cfg now acc lot).1, expire_due now o = false := by
  unfold promo_step
  split
  · exact h
  · dsimp only
    split
    · intro o ho
      rcases List.mem_map.mp ho with ⟨x, hx, rfl⟩
      by_cases hxsel : x ∈ promo_sel acc.1 lot.id
          (lot.quantity - paid_count acc.1 lot.id - active_count acc.1 lot.id)
      · rcases promoteUpd_mem cfg now acc.2.1 _ x
          (List.mem_map_of_mem (fun o => o.id) hxsel) with ⟨k, hk⟩
        rw [hk]
        have h2 : ¬(now + cfg.holdDur < now) := by omega
        simp [expire_due, promoteOne, statusActive, h2]
      · rw [promoteUpd_fix_of_not_sel cfg now acc.2.1 acc.1 hnd lot.id _ hx hxsel]
        exact h x hx
    · exact h

theorem promo_step_mem_fix (cfg : Cfg) (now : Nat) (acc : List Offer × Nat × List Eff)
    (lot : Lot) (hnd : idsNodup acc.1) {o : Offer}
    (ho : o ∈ acc.1) (hstat : o.status ≠ OfferStatus.CANCELED) :
    o ∈ (promo_step cfg now acc lot).1 := by
  unfold promo_step
  split
  · exact ho
  · dsimp only
    split
    · refine mem_map_of_fix _ _ _ ho ?_
      refine promoteUpd_fix_of_not_sel cfg now acc.2.1 acc.1 hnd lot.id _ ho ?_
      intro hsel
      exact hstat (promo_sel_spec _ _ _ o hsel).2
    · exact ho

theorem countS_or_split (offers : List Offer) (lid : Nat) (p q : OfferStatus → Bool)
    (hdisj : ∀ st, ¬(p st = true ∧ q st = true)) :
    countS offers lid (fun st => p st || q st)
      = countS offers lid p + countS offers lid q := by
  have hkey : ∀ (X Y Z : Bool), ¬(Y = true ∧ Z = true) →
      ((if (X && (Y || Z)) = true then 1 else 0) : Nat)
        = (if (X && Y) = true then 1 else 0) + (if (X && Z) = true then 1 else 0) := by
    intro X Y Z hYZ
    cases X <;> cases Y <;> cases Z <;> simp at hYZ ⊢
  unfold countS
  induction offers with
  | nil => rfl
  | cons a t ih =>
    simp only [List.countP_cons, ih]
    rw [hkey (a.lotId == lid) (p a.status) (q a.status) (hdisj a.status)]
    omega

theorem promo_step_held_self (cfg : Cfg) (now : Nat) (acc : List Offer × Nat × List Eff)
    (lot : Lot) (hnd : idsNodup acc.1) :
    held_count (promo_step cfg now acc lot).1 lot.id
      ≤ max (held_count acc.1 lot.id) lot.quantity := by
  unfold promo_step
  split
  · exact Nat.le_max_left ..
  · dsimp only
    split
    · rename_i hlt
      have hdisj : ∀ st : OfferStatus,
          ¬(statusActive st = true ∧ (st == OfferStatus.PAID) = true) := by
        intro st
        cases st <;> simp [statusActive]
      have hsplit : held_count (acc.1.map
          (promoteUpd cfg now acc.2.1 ((promo_sel acc.1 lot.id
            (lot.quantity - paid_count acc.1 lot.id - active_count acc.1 lot.id)).map
              (fun o => o.id)))) lot.id
          = active_count (acc.1.map
          (promoteUpd cfg now acc.2.1 ((promo_sel acc.1 lot.id
            (lot.quantity - paid_count acc.1 lot.id - active_count acc.1 lot.id)).map
              (fun o => o.id)))) lot.id
          + paid_count (acc.1.map
          (promoteUpd cfg now acc.2.1 ((promo_sel acc.1 lot.id
            (lot.quantity - paid_count acc.1 lot.id - active_count acc.1 lot.id)).map
              (fun o => o.id)))) lot.id :=
        countS_or_split _ lot.id statusActive (fun st => st == OfferStatus.PAID) hdisj
      have hact := promo_map_active cfg now acc.2.1 acc.1 lot.id
        (lot.quantity - paid_count acc.1 lot.id - active_count acc.1 lot.id) hnd
      have hpaid : paid_count (acc.1.map
          (promoteUpd cfg now acc.2.1 ((promo_sel acc.1 lot.id
            (lot.quantity - paid_count acc.1 lot.id - active_count acc.1 lot.id)).map
              (fun x => x.id)))) lot.id = paid_count acc.1 lot.id :=
        promo_map_countS_pres cfg now acc.2.1 acc.1 lot.id
          (lot.quantity - paid_count acc.1 lot.id - active_count acc.1 lot.id) hnd lot.id
          (· == OfferStatus.PAID) rfl rfl
      have hsl := promo_sel_length acc.1 lot.id
        (lot.quantity - paid_count acc.1 lot.id - active_count acc.1 lot.id)
      rw [hsplit, hact, hpaid, hsl]
      omega
    · exact Nat.le_max_left ..

theorem promo_step_held_other (cfg : Cfg) (now : Nat) (acc : List Offer × Nat × List Eff)
    (lot : Lot) (hnd : idsNodup acc.1) (lid' : Nat) (hne : lid' ≠ lot.id) :
    held_count (promo_step cfg now acc lot).1 lid' = held_count acc.1 lid' :=
  promo_step_countS_other cfg now acc lot hnd lid' _ hne

/-! ### Reminder- and expiry-pass lemmas -/

theorem remind_pass_ids (cfg : Cfg) (now : Nat) (offers : List Offer) :
    (remind_pass cfg now offers).map (fun o => o.id) = offers.map (fun o => o.id) := by
  unfold remind_pass
  rw [List.map_map]
  apply List.map_congr_left
  intro o _
  by_cases h : remind_due cfg now o = true <;> simp [h]

theorem remind_pass_countS (cfg : Cfg) (now : Nat) (offers : List Offer)
    (lid : Nat) (P : OfferStatus → Bool) :
    countS (remind_pass cfg now offers) lid P = countS offers lid P := by
  unfold remind_pass countS
  apply countP_map_eq_of_pred
  intro o _
  by_cases h : remind_due cfg now o = true <;> simp [h]

theorem remind_pass_noDue (cfg : Cfg) (now : Nat) (offers : List Offer) :
    ∀ o ∈ remind_pass cfg now offers, remind_due cfg now o = false := by
  intro o ho
  rcases List.mem_map.mp ho with ⟨x, _, rfl⟩
  by_cases h : remind_due cfg now x = true
  · simp only [h, if_true]
    unfold remind_due
    simp
  · simp only [h, if_false]
    simpa using h

theorem remind_pass_fix_inactive (cfg : Cfg) (now : Nat) (o : Offer)
    (h : statusActive o.status = false) :
    (if remind_due cfg now o = true then { o with reminderSent := true } else o) = o := by
  have : remind_due cfg now o = false := by
    unfold remind_due
    simp [h]
  simp [this]

theorem remind_pass_canceled (cfg : Cfg) (now : Nat) (offers : List Offer) (lid : Nat) :
    canceled_of (remind_pass cfg now offers) lid = canceled_of offers lid := by
  unfold remind_pass canceled_of
  apply filter_map_eq_filter
  intro o _
  constructor
  · by_cases h : remind_due cfg now o = true <;> simp [h]
  · intro hp
    simp only [Bool.and_eq_true, beq_iff_eq] at hp
    exact remind_pass_fix_inactive cfg now o (by simp [statusActive, hp.2])

theorem remind_pass_id_of_noDue (cfg : Cfg) (now : Nat) (offers : List Offer)
    (h : ∀ o ∈ offers, remind_due cfg now o = false) :
    remind_pass cfg now offers = offers := by
  unfold remind_pass
  exact map_id_of_fix _ _ (fun o ho => by simp [h o ho])

theorem expire_pass_ids (now : Nat) (offers : List Offer) :
    (expire_pass now offers).map (fun o => o.id) = offers.map (fun o => o.id) := by
  unfold expire_pass
  rw [List.map_map]
  apply List.map_congr_left
  intro o _
  by_cases h : expire_due now o = true <;> simp [h]

theorem expire_pass_countS_pres (now : Nat) (offers : List Offer)
    (lid : Nat) (P : OfferStatus → Bool)
    (hP1 : P OfferStatus.EXPIRED = false)
    (hP2 : P OfferStatus.OFFERED = false) (hP3 : P OfferStatus.POSTPONED = false) :
    countS (expire_pass now offers) lid P = countS offers lid P := by
  unfold expire_pass countS
  apply countP_map_eq_of_pred
  intro o _
  by_cases h : expire_due now o = true
  · have hact : statusActive o.status = true := by
      unfold expire_due at h
      exact (Bool.and_eq_true ..).mp h |>.1
    have : P o.status = false := by
      rcases (Bool.or_eq_true ..).mp hact with h1 | h1 <;>
        rw [beq_iff_eq] at h1 <;> simp [h1, hP2, hP3]
    simp [h, hP1, this]
  · simp [h]

theorem expire_pass_noDue (now : Nat) (offers : List Offer) :
    ∀ o ∈ expire_pass now offers, expire_due now o = false := by
  intro o ho
  rcases List.mem_map.mp ho with ⟨x, _, rfl⟩
  by_cases h : expire_due now x = true
  · simp only [h, if_true]
    unfold expire_due
    simp [statusActive]
  · simp only [h, if_false]
    simpa using h

theorem expire_pass_noRemind_pres (cfg : Cfg) (now : Nat) (offers : List Offer)
    (h : ∀ o ∈ offers, remind_due cfg now o = false) :
    ∀ o ∈ expire_pass now offers, remind_due cfg now o = false := by
  intro o ho
  rcases List.mem_map.mp ho with ⟨x, hx, rfl⟩
  by_cases hd : expire_due now x = true
  · simp only [hd, if_true]
    unfold remind_due
    simp [statusActive]
  · simp only [hd, if_false]
    exact h x hx

theorem expire_pass_fix_inactive (now : Nat) (o : Offer)
    (h : statusActive o.status = false) :
    (if expire_due now o = true then { o with status := OfferStatus.EXPIRED } else o) = o := by
  have : expire_due now o = false := by
    unfold expire_due
    simp [h]
  simp [this]

theorem expire_pass_canceled (now : Nat) (offers : List Offer) (lid : Nat) :
    canceled_of (expire_pass now offers) lid = canceled_of offers lid := by
  unfold expire_pass canceled_of
  apply filter_map_eq_filter
  intro o _
  constructor
  · by_cases h : expire_due now o = true
    · have hact : statusActive o.status = true := by
        unfold expire_due at h
        exact (Bool.and_eq_true ..).mp h |>.1
      have : (o.status == OfferStatus.CANCELED) = false := by
        rcases (Bool.or_eq_true ..).mp hact with h1 | h1 <;>
          rw [beq_iff_eq] at h1 <;> simp [h1]
      simp [h, this]
    · simp [h]
  · intro hp
    simp only [Bool.and_eq_true, beq_iff_eq] at hp
    exact expire_pass_fix_inactive now o (by simp [statusActive, hp.2])

theorem expire_pass_id_of_noDue (now : Nat) (offers : List Offer)
    (h : ∀ o ∈ offers, expire_due now o = false) :
    expire_pass now offers = offers := by
  unfold expire_pass
  exact map_id_of_fix _ _ (fun o ho => by simp [h o ho])

theorem expire_pass_held_le (now : Nat) (offers : List Offer) (lid : Nat) :
    held_count (expire_pass now offers) lid ≤ held_count offers lid := by
  unfold expire_pass held_count countS
  apply countP_map_le_of_pred
  intro o _
  by_cases h : expire_due now o = true
  · simp [h, statusActive]
  · simp [h]

/-! ### Promotion-fold lemmas -/

theorem promo_fold_ids (cfg : Cfg) (now : Nat) (lots : List Lot)
    (acc : List Offer × Nat × List Eff) :
    ((lots.foldl (promo_step cfg now) acc).1).map (fun o => o.id)
      = acc.1.map (fun o => o.id) := by
  induction lots generalizing acc with
  | nil => rfl
  | cons m t ih =>
    rw [List.foldl_cons]
    exact (ih (promo_step cfg now acc m)).trans (promo_step_ids cfg now acc m)

theorem promo_fold_nodup (cfg : Cfg) (now : Nat) (lots : List Lot)
    (acc : List Offer × Nat × List Eff) (hnd : idsNodup acc.1) :
    idsNodup (lots.foldl (promo_step cfg now) acc).1 := by
  unfold idsNodup
  rw [promo_fold_ids]
  exact hnd

theorem promo_fold_id_of_stable (cfg : Cfg) (now : Nat) (lots : List Lot)
    (acc : List Offer × Nat × List Eff) (hst : ∀ lot ∈ lots, lotStable acc.1 lot) :
    (lots.foldl (promo_step cfg now) acc).1 = acc.1
      ∧ (lots.foldl (promo_step cfg now) acc).2.1 = acc.2.1 := by
  induction lots generalizing acc with
  | nil => exact ⟨rfl, rfl⟩
  | cons m t ih =>
    rw [List.foldl_cons]
    have hm := promo_step_id_of_stable cfg now acc m (hst m (by simp))
    have ht := ih (promo_step cfg now acc m)
      (fun lot hl => hm.1.symm ▸ hst lot (by simp [hl]))
    exact ⟨ht.1.trans hm.1, ht.2.trans hm.2⟩

theorem promo_fold_noRemind (cfg : Cfg) (now : Nat) (lots : List Lot)
    (acc : List Offer × Nat × List Eff) (hnd : idsNodup acc.1)
    (hcfg : cfg.remindBefore < cfg.holdDur)
    (h : ∀ o ∈ acc.1, remind_due cfg now o = false) :
    ∀ o ∈ (lots.foldl (promo_step cfg now) acc).1, remind_due cfg now o = false := by
  induction lots generalizing acc with
  | nil => exact h
  | cons m t ih =>
    rw [List.foldl_cons]
    refine ih (promo_step cfg now acc m) ?_ ?_
    · unfold idsNodup
      rw [promo_step_ids]
      exact hnd
    · exact promo_step_noRemind cfg now acc m hnd hcfg h

theorem promo_fold_noExpire (cfg : Cfg) (now : Nat) (lots : List Lot)
    (acc : List Offer × Nat × List Eff) (hnd : idsNodup acc.1)
    (h : ∀ o ∈ acc.1, expire_due now o = false) :
    ∀ o ∈ (lots.foldl (promo_step cfg now) acc).1, expire_due now o = false := by
  induction lots generalizing acc with
  | nil => exact h
  | cons m t ih =>
    rw [List.foldl_cons]
    refine ih (promo_step cfg now acc m) ?_ ?_
    · unfold idsNodup
      rw [promo_step_ids]
      exact hnd
    · exact promo_step_noExpire cfg now acc m hnd h

theorem promo_fold_stable_pres (cfg : Cfg) (now : Nat) (lots : List Lot)
    (acc : List Offer × Nat × List Eff) (lot : Lot)
    (hne : ∀ m ∈ lots, m.id ≠ lot.id) (hnd : idsNodup acc.1)
    (hst : lotStable acc.1 lot) :
    lotStable (lots.foldl (promo_step cfg now) acc).1 lot := by
  induction lots generalizing acc with
  | nil => exact hst
  | cons m t ih =>
    rw [List.foldl_cons]
    refine ih (promo_step cfg now acc m) (fun x hx => hne x (List.mem_cons_of_mem m hx)) ?_ ?_
    · unfold idsNodup
      rw [promo_step_ids]
      exact hnd
    · exact promo_step_stable_other cfg now acc m hnd lot
        (Ne.symm (hne m (List.mem_cons_self m t))) hst

theorem promo_fold_stable_all (cfg : Cfg) (now : Nat) (lots : List Lot)
    (acc : List Offer × Nat × List Eff) (hnd : idsNodup acc.1)
    (hlots : (lots.map (fun l => l.id)).Nodup) :
    ∀ lot ∈ lots, lotStable (lots.foldl (promo_step cfg now) acc).1 lot := by
  induction lots generalizing acc with
  | nil => intro lot h; cases h
  | cons m t ih =>
    intro lot hlot
    rw [List.foldl_cons]
    have hndm : idsNodup (promo_step cfg now acc m).1 := by
      unfold idsNodup
      rw [promo_step_ids]
      exact hnd
    rcases List.mem_cons.mp hlot with h1 | h1
    · rw [h1]
      refine promo_fold_stable_pres cfg now t (promo_step cfg now acc m) m ?_ hndm
        (promo_step_stable_self cfg now acc m hnd)
      intro x hx he
      refine (List.nodup_cons.mp hlots).1 ?_
      show m.id ∈ List.map (fun l => l.id) t
      rw [← he]
      exact List.mem_map_of_mem (fun l => l.id) hx
    · exact ih (promo_step cfg now acc m) hndm (List.nodup_cons.mp hlots).2 lot h1

theorem promo_fold_mem_fix (cfg : Cfg) (now : Nat) (lots : List Lot)
    (acc : List Offer × Nat × List Eff) (hnd : idsNodup acc.1) {o : Offer}
    (ho : o ∈ acc.1) (hstat : o.status ≠ OfferStatus.CANCELED) :
    o ∈ (lots.foldl (promo_step cfg now) acc).1 := by
  induction lots generalizing acc with
  | nil => exact ho
  | cons m t ih =>
    rw [List.foldl_cons]
    refine ih (promo_step cfg now acc m) ?_ ?_
    · unfold idsNodup
      rw [promo_step_ids]
      exact hnd
    · exact promo_step_mem_fix cfg now acc m hnd ho hstat

theorem promo_fold_held (cfg : Cfg) (now : Nat) (lots : List Lot)
    (acc : List Offer × Nat × List Eff) (l : Lot) (hnd : idsNodup acc.1)
    (hq : ∀ m ∈ lots, m.id = l.id → m.quantity = l.quantity)
    (hb : held_count acc.1 l.id ≤ l.quantity) :
    held_count (lots.foldl (promo_step cfg now) acc).1 l.id ≤ l.quantity := by
  induction lots generalizing acc with
  | nil => exact hb
  | cons m t ih =>
    rw [List.foldl_cons]
    have hndm : idsNodup (promo_step cfg now acc m).1 := by
      unfold idsNodup
      rw [promo_step_ids]
      exact hnd
    refine ih (promo_step cfg now acc m) hndm
      (fun x hx he => hq x (List.mem_cons_of_mem m hx) he) ?_
    by_cases hid : l.id = m.id
    · have hql := hq m (by simp) hid.symm
      have := promo_step_held_self cfg now acc m hnd
      rw [← hid] at this
      calc held_count (promo_step cfg now acc m).1 l.id
          ≤ max (held_count acc.1 l.id) m.quantity := this
        _ ≤ l.quantity := by omega
    · rw [promo_step_held_other cfg now acc m hnd l.id hid]
      exact hb

/-- C8: sweep idempotence.  Running `advance_cascade` twice at the same
instant with no intervening external change leaves the state exactly as
after the first run: no new promotions, no duplicate reminders
(`reminder_sent` stays set), no duplicate expiries.  Holds for every
well-formed state (unique offer and lot primary keys) under the spec's
configuration constraint `REMINDER_LEAD_TIME < HOLD_DURATION`. -/
theorem C8_sweep_idempotent (cfg : Cfg) (now : Nat) (s : St)
    (hoff : idsNodup s.offers) (hlots : (s.lots.map (fun l => l.id)).Nodup)
    (hcfg : cfg.remindBefore < cfg.holdDur) :
    (advance_cascade cfg now ((advance_cascade cfg now s).1)).1
      = (advance_cascade cfg now s).1 := by
  have hnd2 : idsNodup (expire_pass now (remind_pass cfg now s.offers)) := by
    unfold idsNodup
    rw [expire_pass_ids, remind_pass_ids]
    exact hoff
  have hnoR2 : ∀ o ∈ expire_pass now (remind_pass cfg now s.offers),
      remind_due cfg now o = false :=
    expire_pass_noRemind_pres cfg now _ (remind_pass_noDue cfg now s.offers)
  have hnoE2 : ∀ o ∈ expire_pass now (remind_pass cfg now s.offers),
      expire_due now o = false :=
    expire_pass_noDue now _
  have hnoR3 : ∀ o ∈ (s.lots.foldl (promo_step cfg now)
      (expire_pass now (remind_pass cfg now s.offers), s.nextInvoice, [])).1,
      remind_due cfg now o = false :=
    promo_fold_noRemind cfg now s.lots _ hnd2 hcfg hnoR2
  have hnoE3 : ∀ o ∈ (s.lots.foldl (promo_step cfg now)
      (expire_pass now (remind_pass cfg now s.offers), s.nextInvoice, [])).1,
      expire_due now o = false :=
    promo_fold_noExpire cfg now s.lots _ hnd2 hnoE2
  have hstab : ∀ lot ∈ s.lots, lotStable (s.lots.foldl (promo_step cfg now)
      (expire_pass now (remind_pass cfg now s.offers), s.nextInvoice, [])).1 lot :=
    promo_fold_stable_all cfg now s.lots _ hnd2 hlots
  have h1 : (advance_cascade cfg now s).1 = { s with
      offers := (s.lots.foldl (promo_step cfg now)
        (expire_pass now (remind_pass cfg now s.offers), s.nextInvoice, [])).1,
      nextInvoice := (s.lots.foldl (promo_step cfg now)
        (expire_pass now (remind_pass cfg now s.offers), s.nextInvoice, [])).2.1 } := rfl
  rw [h1]
  have hrm : remind_pass cfg now (s.lots.foldl (promo_step cfg now)
      (expire_pass now (remind_pass cfg now s.offers), s.nextInvoice, [])).1
      = (s.lots.foldl (promo_step cfg now)
        (expire_pass now (remind_pass cfg now s.offers), s.nextInvoice, [])).1 :=
    remind_pass_id_of_noDue cfg now _ hnoR3
  have hex : expire_pass now (s.lots.foldl (promo_step cfg now)
      (expire_pass now (remind_pass cfg now s.offers), s.nextInvoice, [])).1
      = (s.lots.foldl (promo_step cfg now)
        (expire_pass now (remind_pass cfg now s.offers), s.nextInvoice, [])).1 :=
    expire_pass_id_of_noDue now _ hnoE3
  have hfold := promo_fold_id_of_stable cfg now s.lots
    ((s.lots.foldl (promo_step cfg now)
        (expire_pass now (remind_pass cfg now s.offers), s.nextInvoice, [])).1,
     (s.lots.foldl (promo_step cfg now)
        (expire_pass now (remind_pass cfg now s.offers), s.nextInvoice, [])).2.1, [])
    hstab
  show { s with
      offers := (s.lots.foldl (promo_step cfg now)
        (expire_pass now (remind_pass cfg now (s.lots.foldl (promo_step cfg now)
          (expire_pass now (remind_pass cfg now s.offers), s.nextInvoice, [])).1),
          (s.lots.foldl (promo_step cfg now)
            (expire_pass now (remind_pass cfg now s.offers), s.nextInvoice, [])).2.1, [])).1,
      nextInvoice := (s.lots.foldl (promo_step cfg now)
        (expire_pass now (remind_pass cfg now (s.lots.foldl (promo_step cfg now)
          (expire_pass now (remind_pass cfg now s.offers), s.nextInvoice, [])).1),
          (s.lots.foldl (promo_step cfg now)
            (expire_pass now (remind_pass cfg now s.offers), s.nextInvoice, [])).2.1, [])).2.1 }
    = _
  rw [hrm, hex, hfold.1, hfold.2]

/-- Shared concrete fixture: HOLD_HOURS = 24, reminder lead = 5. -/
def cfgW : Cfg := Cfg.mk 24 5

/-- Concrete FINISHED auction lot, quantity 1, with a channel post. -/
def lotW : Lot := Lot.mk 1 10 15 1 LotStatus.FINISHED 250 (some (-100)) (some 7)

/-- Rank-1 offer of `lotW`, held until t=5. -/
def offW1 : Offer :=
  Offer.mk 1 1 200 250 1 OfferStatus.OFFERED (some 5) (some 50) (some 50) none false

/-- Rank-2 reserve candidate of `lotW`. -/
def offW2 : Offer :=
  Offer.mk 2 1 100 200 2 OfferStatus.CANCELED none none none none false

/-- Concrete state: one finished lot, an active rank-1 offer past its
deadline at t=10 and one CANCELED reserve. -/
def stW : St := St.mk [lotW] [] [offW1, offW2] 3 51

/-- Witness for C8 at a state where the first sweep really works (expires
the rank-1 offer and promotes the reserve): the second sweep changes
nothing. -/
theorem C8_witness :
    (advance_cascade cfgW 10 ((advance_cascade cfgW 10 stW).1)).1
      = (advance_cascade cfgW 10 stW).1 :=
  C8_sweep_idempotent cfgW 10 stW
    (by show (stW.offers.map (fun o => o.id)).Nodup; decide) (by decide) (by decide)

/-! ### Capacity lemmas -/

theorem map_nodup_inj {α β : Type} (f : α → β) {l : List α}
    (hnd : (l.map f).Nodup) {a b : α} (ha : a ∈ l) (hb : b ∈ l) (h : f a = f b) :
    a = b := by
  induction l with
  | nil => cases ha
  | cons x t ih =>
    have hx : f x ∉ t.map f := (List.nodup_cons.mp hnd).1
    have ht : (t.map f).Nodup := (List.nodup_cons.mp hnd).2
    rcases List.mem_cons.mp ha with ha1 | ha1 <;> rcases List.mem_cons.mp hb with hb1 | hb1
    · rw [ha1, hb1]
    · subst ha1
      exact absurd (h.symm ▸ (List.mem_map_of_mem f hb1)) hx
    · subst hb1
      exact absurd (h ▸ (List.mem_map_of_mem f ha1)) hx
    · exact ih ht ha1 hb1

theorem countS_eq_zero (offers : List Offer) (lid : Nat) (P : OfferStatus → Bool)
    (h : ∀ o ∈ offers, o.lotId ≠ lid) : countS offers lid P = 0 := by
  unfold countS
  rw [List.countP_eq_zero]
  intro o ho
  simp [h o ho]

theorem countS_cons (o : Offer) (rest : List Offer) (lid : Nat) (P : OfferStatus → Bool) :
    countS (o :: rest) lid P
      = countS rest lid P + (if (o.lotId == lid && P o.status) = true then 1 else 0) :=
  List.countP_cons ..

theorem mkCascade_held (cfg : Cfg) (now lid qty : Nat) (l : List (Nat × Nat)) :
    ∀ rank oid inv, 1 ≤ rank →
    held_count (mkCascade cfg now lid qty rank oid inv l).1 lid ≤ qty + 1 - rank := by
  induction l with
  | nil =>
    intro rank oid inv _
    unfold mkCascade held_count countS
    simp
  | cons p rest ih =>
    intro rank oid inv hrank
    rcases p with ⟨u, mx⟩
    unfold mkCascade
    split
    · rename_i hle
      have hrec := ih (rank + 1) (oid + 1) (inv + 1) (by omega)
      unfold held_count at hrec ⊢
      dsimp only
      rw [countS_cons]
      split
      · omega
      · rename_i hC
        exfalso
        apply hC
        simp [statusActive]
    · rename_i hgt
      have hrec := ih (rank + 1) (oid + 1) inv (by omega)
      unfold held_count at hrec ⊢
      dsimp only
      rw [countS_cons]
      split
      · rename_i hC
        exfalso
        simp [statusActive] at hC
      · omega

theorem countS_append (a b : List Offer) (lid : Nat) (P : OfferStatus → Bool) :
    countS (a ++ b) lid P = countS a lid P + countS b lid P :=
  List.countP_append ..

/-- Concrete fixed-price lot, quantity 1, ACTIVE. -/
def lotC1 : Lot := Lot.mk 1 20 0 1 LotStatus.ACTIVE 300 none none

/-- An existing OFFERED purchase claim of user 100 on `lotC1`. -/
def offC1 : Offer :=
  Offer.mk 1 1 100 300 1 OfferStatus.OFFERED (some 24) (some 5) (some 5) none false

/-- State for the C1 counterexample. -/
def stC1 : St := St.mk [lotC1] [] [offC1] 2 6

/-- C1 counterexample: the sale purchase-intent flow guards only on the
PAID count, so with quantity 1 and one OFFERED claim already present, a
second user's intent creates a second OFFERED offer and pushes
`count(OFFERED ∪ POSTPONED ∪ PAID)` to 2 > quantity — the capacity
invariant is not preserved by every operation. -/
theorem C1_counterexample :
    held_count stC1.offers lotC1.id ≤ lotC1.quantity
      ∧ lotC1.quantity
          < held_count ((start_entry_sale cfgW 0 200 20 stC1).1).offers lotC1.id := by
  decide

/-- C1 as amended: the capacity bound `count(OFFERED ∪ POSTPONED ∪ PAID) ≤
quantity` is established by cascade start on a lot with no pre-existing
offers, and is preserved by the reconciliation sweep (promotion only tops
up to the remaining quantity); the sale purchase-intent path (and the
payment path) check only the PAID count and are not covered by it. -/
theorem C1_amended :
    (∀ (cfg : Cfg) (now lid : Nat) (s : St) (lot : Lot),
        find_lot s lid = some lot →
        (∀ o ∈ s.offers, o.lotId ≠ lid) →
        held_count ((start_cascade cfg now lid s).1).offers lid ≤ lot.quantity)
    ∧ (∀ (cfg : Cfg) (now : Nat) (s : St) (l : Lot),
        idsNodup s.offers → (s.lots.map (fun x => x.id)).Nodup →
        l ∈ s.lots → held_count s.offers l.id ≤ l.quantity →
        held_count ((advance_cascade cfg now s).1).offers l.id ≤ l.quantity) := by
  constructor
  · intro cfg now lid s lot hfind hnone
    have h0 : held_count s.offers lid = 0 := countS_eq_zero _ _ _ hnone
    unfold start_cascade
    rw [hfind]
    dsimp only
    split
    · rw [h0]
      exact Nat.zero_le _
    · split
      · rw [h0]
        exact Nat.zero_le _
      · have hm := mkCascade_held cfg now lid lot.quantity (rankingOf (bidsOf s lid))
          1 s.nextOfferId s.nextInvoice (by omega)
        unfold held_count at hm h0 ⊢
        dsimp only
        rw [countS_append, h0]
        omega
  · intro cfg now s l hoff hlots hl hb
    have h1 : ((advance_cascade cfg now s).1).offers
        = (s.lots.foldl (promo_step cfg now)
            (expire_pass now (remind_pass cfg now s.offers), s.nextInvoice, [])).1 := rfl
    rw [h1]
    have hnd2 : idsNodup (expire_pass now (remind_pass cfg now s.offers)) := by
      unfold idsNodup
      rw [expire_pass_ids, remind_pass_ids]
      exact hoff
    refine promo_fold_held cfg now s.lots _ l hnd2 ?_ ?_
    · intro m hm he
      rw [map_nodup_inj (fun x => x.id) hlots hm hl he]
    · calc held_count (expire_pass now (remind_pass cfg now s.offers)) l.id
          ≤ held_count (remind_pass cfg now s.offers) l.id := expire_pass_held_le ..
        _ = held_count s.offers l.id := remind_pass_countS ..
        _ ≤ l.quantity := hb

/-- Witness for the amended C1 at concrete inputs: cascade start on a
fresh auction lot respects the bound, and a sweep on `stW` preserves it. -/
theorem C1_witness :
    (held_count ((start_cascade cfgW 0 1 (St.mk [lotW] [Bid.mk 1 1 100 200] [] 1 50)).1).offers 1
        ≤ lotW.quantity)
      ∧ (held_count ((advance_cascade cfgW 10 stW).1).offers lotW.id ≤ lotW.quantity) :=
  ⟨C1_amended.1 cfgW 0 1 (St.mk [lotW] [Bid.mk 1 1 100 200] [] 1 50) lotW rfl
      (by intro o ho; cases ho),
   C1_amended.2 cfgW 10 stW lotW
      (by show (stW.offers.map (fun o => o.id)).Nodup; decide) (by decide)
      (by decide) (by decide)⟩

/-! ### Payment-webhook characterization -/

/-- The row update of the webhook success path: status PAID, payment
timestamp recorded. -/
def paidUpd (now : Nat) (o : Offer) : Offer :=
  { o with status := OfferStatus.PAID, paidAt := some now }

theorem monopay_webhook_success_eq (now : Nat) (ev : PayEvent) (s : St) (oid : Nat)
    (off : Offer) (hoid : ev.offerId = some oid) (h0 : oid ≠ 0)
    (hfind : find_offer s oid = some off) (hst : ev.status = "success") :
    monopay_webhook now ev s
      = ({ s with offers := updateOffers s.offers oid (paidUpd now) },
         (match find_lot { s with offers := updateOffers s.offers oid (paidUpd now) }
              off.lotId with
          | some lot => maybe_delete_lot_post (updateOffers s.offers oid (paidUpd now)) lot
          | none => []) ++ [Eff.contactForm off.userTgId]) := by
  unfold monopay_webhook
  rw [hoid]
  dsimp only
  have h00 : (oid == 0) = false := by
    simp [h0]
  have hc1 : (ev.status == "created" || ev.status == "processing") = false := by
    rw [hst]
    decide
  have hc2 : (ev.status != "success") = false := by
    rw [hst]
    decide
  rw [h00]
  simp only [Bool.false_eq_true, if_false]
  rw [hfind]
  dsimp only
  rw [hc1, hc2]
  simp only [Bool.false_eq_true, if_false]
  rfl

/-- Lot for the payment-idempotency counterexample. -/
def lotC2 : Lot := Lot.mk 1 30 15 1 LotStatus.FINISHED 250 (some (-100)) (some 7)

/-- An offer that is already PAID (payment timestamp 5). -/
def offC2 : Offer :=
  Offer.mk 1 1 100 250 1 OfferStatus.PAID (some 24) (some 5) (some 5) (some 5) false

/-- State for the C2 counterexample. -/
def stC2 : St := St.mk [lotC2] [] [offC2] 2 6

/-- A duplicate success event for the already-paid offer. -/
def evC2 : PayEvent := PayEvent.mk "success" (some 5) (some 250) (some 980) (some 1)

/-- C2 counterexample: a second success webhook for an already-PAID offer
does not leave the state unchanged (the payment timestamp is overwritten
with the current time) and does perform side effects again. -/
theorem C2_counterexample :
    (stC2.offers.find? (fun o => o.id == 1)).map (fun o => o.status)
        = some OfferStatus.PAID
    ∧ (monopay_webhook 10 evC2 stC2).1 ≠ stC2
    ∧ (monopay_webhook 10 evC2 stC2).2 ≠ [] := by
  decide

/-- C2 as amended: the webhook has no idempotency guard — a success event
for an already-PAID offer re-runs the whole success path: the offer is
written again with status PAID and `paid_at` set to the current time, and
the contact-form notification is re-sent (the handler still acknowledges). -/
theorem C2_amended (now : Nat) (ev : PayEvent) (s : St) (oid : Nat) (off : Offer)
    (hoid : ev.offerId = some oid) (h0 : oid ≠ 0)
    (hfind : find_offer s oid = some off) (hst : ev.status = "success")
    (hpaid : off.status = OfferStatus.PAID) :
    paidUpd now off ∈ (monopay_webhook now ev s).1.offers
    ∧ Eff.contactForm off.userTgId ∈ (monopay_webhook now ev s).2 := by
  rw [monopay_webhook_success_eq now ev s oid off hoid h0 hfind hst]
  constructor
  · show paidUpd now off ∈ updateOffers s.offers oid (paidUpd now)
    have hmem := List.mem_of_find?_eq_some hfind
    have hid : (off.id == oid) = true := by
      simpa using List.find?_some hfind
    refine List.mem_map.mpr ⟨off, hmem, ?_⟩
    simp [hid]
  · exact List.mem_append_right _ (by simp)

/-- Witness for the amended C2: the duplicate event on `stC2` rewrites the
paid offer with the new timestamp and re-sends the contact form. -/
theorem C2_witness :
    paidUpd 10 offC2 ∈ (monopay_webhook 10 evC2 stC2).1.offers
    ∧ Eff.contactForm offC2.userTgId ∈ (monopay_webhook 10 evC2 stC2).2 :=
  C2_amended 10 evC2 stC2 1 offC2 rfl (by decide) rfl rfl rfl

/-- Fixed-price lot for the sold-out-cancellation counterexample. -/
def lotC3 : Lot := Lot.mk 1 40 0 1 LotStatus.ACTIVE 300 (some (-100)) (some 7)

/-- Purchase claim of user 100 on `lotC3`. -/
def offC3a : Offer :=
  Offer.mk 1 1 100 300 1 OfferStatus.OFFERED (some 24) (some 5) (some 5) none false

/-- Concurrent purchase claim of user 200 on `lotC3`. -/
def offC3b : Offer :=
  Offer.mk 2 1 200 300 1 OfferStatus.OFFERED (some 24) (some 6) (some 6) none false

/-- State for the C3 counterexample. -/
def stC3 : St := St.mk [lotC3] [] [offC3a, offC3b] 3 7

/-- Success event for user 100's offer. -/
def evC3 : PayEvent := PayEvent.mk "success" (some 5) (some 300) (some 980) (some 1)

/-- C3 counterexample: after the payment that makes the PAID count reach
the quantity, the other OFFERED offer of the lot is NOT transitioned to
CANCELED — the webhook has no cancellation pass. -/
theorem C3_counterexample :
    lotC3.quantity ≤ paid_count ((monopay_webhook 10 evC3 stC3).1).offers lotC3.id
    ∧ ((monopay_webhook 10 evC3 stC3).1.offers.find? (fun o => o.id == 2)).map
        (fun o => o.status) = some OfferStatus.OFFERED := by
  decide

/-- C3 as amended: on a success event the webhook sets the offer PAID and
records the payment timestamp; every other offer row is left entirely
unchanged (no cancellation of OFFERED/POSTPONED offers); listing removal
is triggered when the PAID count reaches `_lot_qty` and the lot has a
stored channel post. -/
theorem C3_amended (now : Nat) (ev : PayEvent) (s : St) (oid : Nat) (off : Offer)
    (lot : Lot) (hoid : ev.offerId = some oid) (h0 : oid ≠ 0)
    (hfind : find_offer s oid = some off) (hst : ev.status = "success") :
    (paidUpd now off ∈ (monopay_webhook now ev s).1.offers)
    ∧ (∀ o ∈ s.offers, o.id ≠ oid → o ∈ (monopay_webhook now ev s).1.offers)
    ∧ (find_lot s off.lotId = some lot →
        lot_qty lot ≤ paid_count (updateOffers s.offers oid (paidUpd now)) lot.id →
        ∀ c m, lot_post_ids lot = some (c, m) →
          Eff.deletePost c m ∈ (monopay_webhook now ev s).2) := by
  rw [monopay_webhook_success_eq now ev s oid off hoid h0 hfind hst]
  refine ⟨?_, ?_, ?_⟩
  · show paidUpd now off ∈ updateOffers s.offers oid (paidUpd now)
    have hmem := List.mem_of_find?_eq_some hfind
    have hid : (off.id == oid) = true := by
      simpa using List.find?_some hfind
    refine List.mem_map.mpr ⟨off, hmem, ?_⟩
    simp [hid]
  · intro o ho hne
    show o ∈ updateOffers s.offers oid (paidUpd now)
    refine List.mem_map.mpr ⟨o, ho, ?_⟩
    simp [hne]
  · intro hlot hcnt c m hpost
    have hlot1 : find_lot { s with offers := updateOffers s.offers oid (paidUpd now) }
        off.lotId = some lot := hlot
    dsimp only
    rw [hlot1]
    apply List.mem_append_left
    unfold maybe_delete_lot_post
    dsimp only
    rw [if_pos hcnt, hpost]
    simp

/-- Witness for the amended C3 on `stC3`: the paid offer is updated, the
other user's offer survives unchanged, and the channel post is deleted. -/
theorem C3_witness :
    (paidUpd 10 offC3a ∈ (monopay_webhook 10 evC3 stC3).1.offers)
    ∧ (∀ o ∈ stC3.offers, o.id ≠ 1 → o ∈ (monopay_webhook 10 evC3 stC3).1.offers)
    ∧ (find_lot stC3 offC3a.lotId = some lotC3 →
        lot_qty lotC3 ≤ paid_count (updateOffers stC3.offers 1 (paidUpd 10)) lotC3.id →
        ∀ c m, lot_post_ids lotC3 = some (c, m) →
          Eff.deletePost c m ∈ (monopay_webhook 10 evC3 stC3).2) :=
  C3_amended 10 evC3 stC3 1 offC3a lotC3 rfl (by decide) rfl rfl

/-- Lot for the validation counterexample. -/
def lotC4 : Lot := Lot.mk 1 50 15 1 LotStatus.FINISHED 250 none none

/-- Offer whose stored invoice reference is 1. -/
def offC4 : Offer :=
  Offer.mk 1 1 100 250 1 OfferStatus.OFFERED (some 24) (some 1) (some 1) none false

/-- State for the C4 counterexample. -/
def stC4 : St := St.mk [lotC4] [] [offC4] 2 10

/-- Success event carrying a DIFFERENT invoice reference (2) and a wrong
amount/currency. -/
def evC4 : PayEvent := PayEvent.mk "success" (some 2) (some 999) (some 840) (some 1)

/-- Another event for the same offer with yet other invoice/amount fields. -/
def evC4b : PayEvent := PayEvent.mk "success" (some 777) (some 1) (some 978) (some 1)

/-- C4 counterexample: an event whose invoice reference differs from the
offer's stored one (and whose amount/currency are wrong) still changes
state — the offer is marked PAID, contradicting "the event causes no state
change". -/
theorem C4_counterexample :
    offC4.invoiceId = some 1 ∧ evC4.invoiceId = some 2
    ∧ evC4.invoiceId ≠ offC4.invoiceId
    ∧ (monopay_webhook 10 evC4 stC4).1 ≠ stC4
    ∧ ((monopay_webhook 10 evC4 stC4).1.offers.find? (fun o => o.id == 1)).map
        (fun o => o.status) = some OfferStatus.PAID := by
  decide

/-- C4 as amended: the webhook performs no invoice-reference, amount or
currency validation at all — its outcome depends only on the event's
status and offer id, so any success event for an existing offer marks it
PAID regardless of those fields (and is acknowledged). -/
theorem C4_amended (now : Nat) (s : St) (ev1 ev2 : PayEvent)
    (hst : ev1.status = ev2.status) (hoid : ev1.offerId = ev2.offerId) :
    monopay_webhook now ev1 s = monopay_webhook now ev2 s := by
  unfold monopay_webhook
  rw [hst, hoid]

/-- Witness for the amended C4: the mismatched-invoice event and a
differently mismatched one produce identical outcomes. -/
theorem C4_witness : monopay_webhook 10 evC4 stC4 = monopay_webhook 10 evC4b stC4 :=
  C4_amended 10 stC4 evC4 evC4b rfl rfl

/-- A PAID offer owned by user 7, for the precondition counterexample. -/
def offC5 : Offer :=
  Offer.mk 1 1 7 250 1 OfferStatus.PAID (some 24) (some 5) (some 5) (some 5) false

/-- State for the C5 counterexample. -/
def stC5 : St := St.mk [] [] [offC5] 2 6

/-- C5 counterexample: Decline by the owner on a PAID offer is NOT
rejected — the handler checks only ownership, so the paid offer is
transitioned to DECLINED instead of being left unchanged. -/
theorem C5_counterexample :
    offC5.status = OfferStatus.PAID ∧ offC5.userTgId = 7
    ∧ ((cb_decline 7 1 stC5).1.offers.find? (fun o => o.id == 1)).map
        (fun o => o.status) = some OfferStatus.DECLINED
    ∧ (cb_decline 7 1 stC5).1 ≠ stC5 := by
  decide

/-- C5 as amended: Decline and Postpone check only that the offer exists
and belongs to the requesting user; the OFFERED/POSTPONED status
precondition is not enforced.  An owned offer in ANY status is
transitioned (Decline → DECLINED; Postpone → POSTPONED, with a hold
deadline set only when none is present); a non-owner's request leaves the
state unchanged. -/
theorem C5_amended :
    (∀ (user oid : Nat) (s : St) (off : Offer), find_offer s oid = some off →
        off.userTgId = user →
        { off with status := OfferStatus.DECLINED } ∈ (cb_decline user oid s).1.offers)
    ∧ (∀ (user oid : Nat) (s : St) (off : Offer), find_offer s oid = some off →
        off.userTgId ≠ user → (cb_decline user oid s).1 = s)
    ∧ (∀ (cfg : Cfg) (now user oid : Nat) (s : St) (off : Offer),
        find_offer s oid = some off → off.userTgId = user →
        { off with status := OfferStatus.POSTPONED,
                   holdUntil := match off.holdUntil with
                     | none => some (now + cfg.holdDur)
                     | some h => some h }
          ∈ (cb_postpone cfg now user oid s).1.offers)
    ∧ (∀ (cfg : Cfg) (now user oid : Nat) (s : St) (off : Offer),
        find_offer s oid = some off → off.userTgId ≠ user →
        (cb_postpone cfg now user oid s).1 = s) := by
  refine ⟨?_, ?_, ?_, ?_⟩
  · intro user oid s off hfind hown
    unfold cb_decline
    rw [hfind]
    dsimp only
    rw [if_neg (by simp [hown])]
    have hid : (off.id == oid) = true := by
      simpa using List.find?_some hfind
    refine List.mem_map.mpr ⟨off, List.mem_of_find?_eq_some hfind, ?_⟩
    simp [hid]
  · intro user oid s off hfind hown
    unfold cb_decline
    rw [hfind]
    dsimp only
    rw [if_pos (by simp [hown])]
  · intro cfg now user oid s off hfind hown
    unfold cb_postpone
    rw [hfind]
    dsimp only
    rw [if_neg (by simp [hown])]
    have hid : (off.id == oid) = true := by
      simpa using List.find?_some hfind
    refine List.mem_map.mpr ⟨off, List.mem_of_find?_eq_some hfind, ?_⟩
    simp [hid]
  · intro cfg now user oid s off hfind hown
    unfold cb_postpone
    rw [hfind]
    dsimp only
    rw [if_pos (by simp [hown])]

/-- Witness for the amended C5 on `stC5`: the owner's decline rewrites the
PAID offer to DECLINED, and a stranger's decline changes nothing. -/
theorem C5_witness :
    ({ offC5 with status := OfferStatus.DECLINED } ∈ (cb_decline 7 1 stC5).1.offers)
    ∧ (cb_decline 8 1 stC5).1 = stC5 :=
  ⟨(C5_amended.1) 7 1 stC5 offC5 rfl rfl,
   (C5_amended.2.1) 8 1 stC5 offC5 rfl (by decide)⟩

/-- A DECLINED (terminal, per the spec) offer owned by user 9. -/
def offC6 : Offer :=
  Offer.mk 1 1 9 100 1 OfferStatus.DECLINED none none none none false

/-- State for the C6 counterexample. -/
def stC6 : St := St.mk [] [] [offC6] 2 6

/-- C6 counterexample: a DECLINED offer is not terminal under the code —
the owner's Postpone callback moves it back to POSTPONED (and gives it a
hold deadline). -/
theorem C6_counterexample :
    offC6.status = OfferStatus.DECLINED
    ∧ ((cb_postpone cfgW 0 9 1 stC6).1.offers.find? (fun o => o.id == 1)).map
        (fun o => o.status) = some OfferStatus.POSTPONED := by
  decide

/-- C6 as amended: the reconciliation sweep never touches a DECLINED or
EXPIRED offer (the row survives every pass unchanged), but the payment
webhook, Decline and Postpone do not check the previous status and can
still change such an offer. -/
theorem C6_amended (cfg : Cfg) (now : Nat) (s : St) (hnd : idsNodup s.offers)
    (o : Offer) (ho : o ∈ s.offers)
    (hst : o.status = OfferStatus.DECLINED ∨ o.status = OfferStatus.EXPIRED) :
    o ∈ ((advance_cascade cfg now s).1).offers := by
  have h1 : ((advance_cascade cfg now s).1).offers
      = (s.lots.foldl (promo_step cfg now)
          (expire_pass now (remind_pass cfg now s.offers), s.nextInvoice, [])).1 := rfl
  rw [h1]
  have hinact : statusActive o.status = false := by
    rcases hst with h | h <;> simp [statusActive, h]
  have ho1 : o ∈ remind_pass cfg now s.offers := by
    unfold remind_pass
    exact mem_map_of_fix _ _ o ho (remind_pass_fix_inactive cfg now o hinact)
  have ho2 : o ∈ expire_pass now (remind_pass cfg now s.offers) := by
    unfold expire_pass
    exact mem_map_of_fix _ _ o ho1 (expire_pass_fix_inactive now o hinact)
  have hnd2 : idsNodup (expire_pass now (remind_pass cfg now s.offers)) := by
    unfold idsNodup
    rw [expire_pass_ids, remind_pass_ids]
    exact hnd
  refine promo_fold_mem_fix cfg now s.lots _ hnd2 ho2 ?_
  rcases hst with h | h <;> simp [h]

/-- Witness for the amended C6: a sweep over a state holding a DECLINED
and an EXPIRED offer leaves both rows in place. -/
theorem C6_witness :
    offC6 ∈ ((advance_cascade cfgW 10 (St.mk [lotW] [] [offC6] 2 6)).1).offers :=
  C6_amended cfgW 10 (St.mk [lotW] [] [offC6] 2 6)
    (by show ((St.mk [lotW] [] [offC6] 2 6).offers.map (fun o => o.id)).Nodup; decide)
    offC6 (by decide) (by decide)

/-! ### Per-lot framing of the promotion fold -/

/-- The offers of one lot (`select(Offer).where(Offer.lot_id == lid)`). -/
def offersOf (offers : List Offer) (lid : Nat) : List Offer :=
  offers.filter (fun o => o.lotId == lid)

theorem promo_step_offersOf_other (cfg : Cfg) (now : Nat)
    (acc : List Offer × Nat × List Eff) (lot : Lot) (hnd : idsNodup acc.1)
    (lid' : Nat) (hne : lid' ≠ lot.id) :
    offersOf (promo_step cfg now acc lot).1 lid' = offersOf acc.1 lid' := by
  unfold promo_step
  split
  · rfl
  · dsimp only
    split
    · unfold offersOf
      apply filter_map_eq_filter
      intro o ho
      constructor
      · rw [promoteUpd_lotId_eq]
      · intro hp
        refine promoteUpd_fix_of_not_sel cfg now acc.2.1 acc.1 hnd lot.id _ ho ?_
        intro hsel
        have := (promo_sel_spec _ _ _ o hsel).1
        simp only [beq_iff_eq] at hp
        exact hne (hp ▸ this)
    · rfl

theorem promo_fold_offersOf_other (cfg : Cfg) (now : Nat) (lots : List Lot)
    (acc : List Offer × Nat × List Eff) (lid' : Nat)
    (hne : ∀ m ∈ lots, m.id ≠ lid') (hnd : idsNodup acc.1) :
    offersOf (lots.foldl (promo_step cfg now) acc).1 lid' = offersOf acc.1 lid' := by
  induction lots generalizing acc with
  | nil => rfl
  | cons m t ih =>
    rw [List.foldl_cons]
    have hndm : idsNodup (promo_step cfg now acc m).1 := by
      unfold idsNodup
      rw [promo_step_ids]
      exact hnd
    exact (ih (promo_step cfg now acc m) (fun x hx => hne x (List.mem_cons_of_mem m hx))
      hndm).trans
      (promo_step_offersOf_other cfg now acc m hnd lid'
        (Ne.symm (hne m (List.mem_cons_self m t))))

theorem promo_fold_canceled_other (cfg : Cfg) (now : Nat) (lots : List Lot)
    (acc : List Offer × Nat × List Eff) (lid' : Nat)
    (hne : ∀ m ∈ lots, m.id ≠ lid') (hnd : idsNodup acc.1) :
    canceled_of (lots.foldl (promo_step cfg now) acc).1 lid' = canceled_of acc.1 lid' := by
  induction lots generalizing acc with
  | nil => rfl
  | cons m t ih =>
    rw [List.foldl_cons]
    have hndm : idsNodup (promo_step cfg now acc m).1 := by
      unfold idsNodup
      rw [promo_step_ids]
      exact hnd
    exact (ih (promo_step cfg now acc m) (fun x hx => hne x (List.mem_cons_of_mem m hx))
      hndm).trans
      (promo_step_canceled_other cfg now acc m hnd lid'
        (Ne.symm (hne m (List.mem_cons_self m t))))

theorem promo_fold_countS_other (cfg : Cfg) (now : Nat) (lots : List Lot)
    (acc : List Offer × Nat × List Eff) (lid' : Nat) (P : OfferStatus → Bool)
    (hne : ∀ m ∈ lots, m.id ≠ lid') (hnd : idsNodup acc.1) :
    countS (lots.foldl (promo_step cfg now) acc).1 lid' P = countS acc.1 lid' P := by
  induction lots generalizing acc with
  | nil => rfl
  | cons m t ih =>
    rw [List.foldl_cons]
    have hndm : idsNodup (promo_step cfg now acc m).1 := by
      unfold idsNodup
      rw [promo_step_ids]
      exact hnd
    exact (ih (promo_step cfg now acc m) (fun x hx => hne x (List.mem_cons_of_mem m hx))
      hndm).trans
      (promo_step_countS_other cfg now acc m hnd lid' P
        (Ne.symm (hne m (List.mem_cons_self m t))))

theorem promo_step_mem_fix_lot (cfg : Cfg) (now : Nat) (acc : List Offer × Nat × List Eff)
    (lot : Lot) (hnd : idsNodup acc.1) {o : Offer} (ho : o ∈ acc.1)
    (hlid : o.lotId ≠ lot.id) : o ∈ (promo_step cfg now acc lot).1 := by
  unfold promo_step
  split
  · exact ho
  · dsimp only
    split
    · refine mem_map_of_fix _ _ _ ho ?_
      refine promoteUpd_fix_of_not_sel cfg now acc.2.1 acc.1 hnd lot.id _ ho ?_
      intro hsel
      exact hlid (promo_sel_spec _ _ _ o hsel).1
    · exact ho

theorem promo_fold_mem_fix_lot (cfg : Cfg) (now : Nat) (lots : List Lot)
    (acc : List Offer × Nat × List Eff) {o : Offer}
    (hne : ∀ m ∈ lots, m.id ≠ o.lotId) (hnd : idsNodup acc.1) (ho : o ∈ acc.1) :
    o ∈ (lots.foldl (promo_step cfg now) acc).1 := by
  induction lots generalizing acc with
  | nil => exact ho
  | cons m t ih =>
    rw [List.foldl_cons]
    have hndm : idsNodup (promo_step cfg now acc m).1 := by
      unfold idsNodup
      rw [promo_step_ids]
      exact hnd
    exact ih (promo_step cfg now acc m) (fun x hx => hne x (List.mem_cons_of_mem m hx)) hndm
      (promo_step_mem_fix_lot cfg now acc m hnd ho
        (fun he => (hne m (List.mem_cons_self m t)) he.symm))

theorem promo_step_effs_mono (cfg : Cfg) (now : Nat) (acc : List Offer × Nat × List Eff)
    (lot : Lot) {e : Eff} (he : e ∈ acc.2.2) : e ∈ (promo_step cfg now acc lot).2.2 := by
  unfold promo_step
  split
  · exact List.mem_append_left _ he
  · dsimp only
    split
    · exact List.mem_append_left _ (List.mem_append_left _ he)
    · exact List.mem_append_left _ he

theorem promo_fold_effs_mono (cfg : Cfg) (now : Nat) (lots : List Lot)
    (acc : List Offer × Nat × List Eff) {e : Eff} (he : e ∈ acc.2.2) :
    e ∈ (lots.foldl (promo_step cfg now) acc).2.2 := by
  induction lots generalizing acc with
  | nil => exact he
  | cons m t ih =>
    rw [List.foldl_cons]
    exact ih (promo_step cfg now acc m) (promo_step_effs_mono cfg now acc m he)

theorem nodup_split_ne {α β : Type} (f : α → β) {l1 l2 : List α} {a : α}
    (hnd : ((l1 ++ a :: l2).map f).Nodup) :
    (∀ m ∈ l1, f m ≠ f a) ∧ (∀ m ∈ l2, f m ≠ f a) := by
  rw [List.map_append, List.map_cons] at hnd
  constructor
  · intro m hm he
    exact (List.nodup_append.mp hnd).2.2 (List.mem_map_of_mem f hm) (by simp [he])
  · intro m hm he
    have h2 := (List.nodup_append.mp hnd).2.1
    refine (List.nodup_cons.mp h2).1 ?_
    rw [← he]
    exact List.mem_map_of_mem f hm

theorem notify_mem_promo_effs (inv : Nat) :
    ∀ (n : Nat) (l : List Offer) (o : Offer), o ∈ l →
    Eff.notify o.userTgId ∈ ((List.enumFrom n l).map
      (fun p => [Eff.invoice p.2.id (inv + p.1), Eff.notify p.2.userTgId])).flatten := by
  intro n l
  induction l generalizing n with
  | nil => intro o ho; cases ho
  | cons a t ih =>
    intro o ho
    rcases List.mem_cons.mp ho with h | h
    · subst h
      simp
    · simp only [List.enumFrom, List.map_cons, List.flatten_cons]
      exact List.mem_append_right _ (ih (n + 1) o h)

theorem promo_sel_min (offers : List Offer) (lid need : Nat) :
    ∀ o ∈ promo_sel offers lid need, ∀ o' ∈ canceled_of offers lid,
      o' ∉ promo_sel offers lid need → o.rankIndex ≤ o'.rankIndex := by
  intro o ho o' ho' hns
  have hsort := sortRank_sorted (canceled_of offers lid)
  have hsplit : sortRank (canceled_of offers lid)
      = promo_sel offers lid need ++ (sortRank (canceled_of offers lid)).drop need :=
    (List.take_append_drop ..).symm
  have ho'm : o' ∈ sortRank (canceled_of offers lid) := mem_sortRank.mpr ho'
  have ho'd : o' ∈ (sortRank (canceled_of offers lid)).drop need := by
    rcases List.mem_append.mp (hsplit ▸ ho'm) with h | h
    · exact absurd h hns
    · exact h
  exact (List.pairwise_append.mp (hsplit ▸ hsort)).2.2 o ho o' ho'd

theorem promo_step_promotes (cfg : Cfg) (now : Nat) (acc : List Offer × Nat × List Eff)
    (lot : Lot) (hnd : idsNodup acc.1) (hfin : lot.status = LotStatus.FINISHED)
    (hlt : active_count acc.1 lot.id < lot.quantity - paid_count acc.1 lot.id) :
    (∀ o ∈ promo_sel acc.1 lot.id
        (lot.quantity - paid_count acc.1 lot.id - active_count acc.1 lot.id),
      (∃ k, promoteOne cfg now k o ∈ (promo_step cfg now acc lot).1)
      ∧ Eff.notify o.userTgId ∈ (promo_step cfg now acc lot).2.2)
    ∧ (∀ o ∈ acc.1, o ∉ promo_sel acc.1 lot.id
        (lot.quantity - paid_count acc.1 lot.id - active_count acc.1 lot.id) →
      o ∈ (promo_step cfg now acc lot).1) := by
  unfold promo_step
  rw [hfin]
  simp only [bne_self_eq_false, Bool.false_eq_true, if_false]
  rw [if_pos hlt]
  constructor
  · intro o ho
    constructor
    · rcases promoteUpd_mem cfg now acc.2.1
          ((promo_sel acc.1 lot.id
            (lot.quantity - paid_count acc.1 lot.id - active_count acc.1 lot.id)).map
              (fun o => o.id)) o
          (List.mem_map_of_mem (fun o => o.id) ho) with ⟨k, hk⟩
      refine ⟨acc.2.1 + k, ?_⟩
      have hmem := List.mem_map_of_mem
        (promoteUpd cfg now acc.2.1
          ((promo_sel acc.1 lot.id
            (lot.quantity - paid_count acc.1 lot.id - active_count acc.1 lot.id)).map
              (fun o => o.id)))
        (promo_sel_subset _ _ _ o ho)
      rwa [hk] at hmem
    · refine List.mem_append_right _ ?_
      exact notify_mem_promo_effs acc.2.1 0 _ o ho
  · intro o ho hns
    refine mem_map_of_fix _ _ _ ho ?_
    exact promoteUpd_fix_of_not_sel cfg now acc.2.1 acc.1 hnd lot.id _ ho hns

/-- The offer table as the promotion pass of the sweep sees it: after the
reminder pass and the expiry pass of the same `advance_cascade` run. -/
def sweep_mid (cfg : Cfg) (now : Nat) (s : St) : List Offer :=
  expire_pass now (remind_pass cfg now s.offers)

/-- The `need = max(quantity − paid, 0) − active` of the promotion pass. -/
def promo_need (offers : List Offer) (lot : Lot) : Nat :=
  lot.quantity - paid_count offers lot.id - active_count offers lot.id

/-- C7 as amended: in a sweep pass, for a FINISHED lot whose remaining
quantity (after the expiry pass) exceeds its active count, the promotion
selects the `min(need, available)` lowest-rank CANCELED offers and each
selected offer reappears as `promoteOne`: status OFFERED, hold deadline
`now + HOLD_DURATION`, a freshly created invoice — with `reminder_sent`
left unchanged (not reset) — and a notification is sent; every
non-selected offer of the lot is left untouched. -/
theorem C7_amended (cfg : Cfg) (now : Nat) (s : St) (lot : Lot)
    (hoff : idsNodup s.offers) (hlots : (s.lots.map (fun l => l.id)).Nodup)
    (hmem : lot ∈ s.lots) (hfin : lot.status = LotStatus.FINISHED)
    (hlt : active_count (sweep_mid cfg now s) lot.id
        < lot.quantity - paid_count (sweep_mid cfg now s) lot.id) :
    (∀ o ∈ promo_sel (sweep_mid cfg now s) lot.id (promo_need (sweep_mid cfg now s) lot),
      (∃ k, promoteOne cfg now k o ∈ ((advance_cascade cfg now s).1).offers)
      ∧ Eff.notify o.userTgId ∈ (advance_cascade cfg now s).2)
    ∧ (∀ o ∈ offersOf (sweep_mid cfg now s) lot.id,
        o ∉ promo_sel (sweep_mid cfg now s) lot.id (promo_need (sweep_mid cfg now s) lot) →
        o ∈ ((advance_cascade cfg now s).1).offers)
    ∧ (promo_sel (sweep_mid cfg now s) lot.id
        (promo_need (sweep_mid cfg now s) lot)).length
        = min (promo_need (sweep_mid cfg now s) lot)
            (canceled_of (sweep_mid cfg now s) lot.id).length
    ∧ (∀ o ∈ promo_sel (sweep_mid cfg now s) lot.id (promo_need (sweep_mid cfg now s) lot),
        o.lotId = lot.id ∧ o.status = OfferStatus.CANCELED)
    ∧ (∀ o ∈ promo_sel (sweep_mid cfg now s) lot.id (promo_need (sweep_mid cfg now s) lot),
        ∀ o' ∈ canceled_of (sweep_mid cfg now s) lot.id,
          o' ∉ promo_sel (sweep_mid cfg now s) lot.id
            (promo_need (sweep_mid cfg now s) lot) →
          o.rankIndex ≤ o'.rankIndex) := by
  obtain ⟨l1, l2, hsplit⟩ := List.append_of_mem hmem
  have hne12 := nodup_split_ne (fun l : Lot => l.id) (hsplit ▸ hlots)
  have hne1 : ∀ m ∈ l1, m.id ≠ lot.id := hne12.1
  have hne2 : ∀ m ∈ l2, m.id ≠ lot.id := hne12.2
  have hndmid : idsNodup (sweep_mid cfg now s) := by
    unfold idsNodup sweep_mid
    rw [expire_pass_ids, remind_pass_ids]
    exact hoff
  have hndA : idsNodup (l1.foldl (promo_step cfg now)
      (sweep_mid cfg now s, s.nextInvoice, [])).1 :=
    promo_fold_nodup cfg now l1 _ hndmid
  have hcanA : canceled_of (l1.foldl (promo_step cfg now)
      (sweep_mid cfg now s, s.nextInvoice, [])).1 lot.id
      = canceled_of (sweep_mid cfg now s) lot.id :=
    promo_fold_canceled_other cfg now l1 _ lot.id hne1 hndmid
  have hpaidA : paid_count (l1.foldl (promo_step cfg now)
      (sweep_mid cfg now s, s.nextInvoice, [])).1 lot.id
      = paid_count (sweep_mid cfg now s) lot.id :=
    promo_fold_countS_other cfg now l1 _ lot.id _ hne1 hndmid
  have hactA : active_count (l1.foldl (promo_step cfg now)
      (sweep_mid cfg now s, s.nextInvoice, [])).1 lot.id
      = active_count (sweep_mid cfg now s) lot.id :=
    promo_fold_countS_other cfg now l1 _ lot.id _ hne1 hndmid
  have hoffA : offersOf (l1.foldl (promo_step cfg now)
      (sweep_mid cfg now s, s.nextInvoice, [])).1 lot.id
      = offersOf (sweep_mid cfg now s) lot.id :=
    promo_fold_offersOf_other cfg now l1 _ lot.id hne1 hndmid
  have hselA : promo_sel (l1.foldl (promo_step cfg now)
        (sweep_mid cfg now s, s.nextInvoice, [])).1 lot.id
        (lot.quantity
          - paid_count (l1.foldl (promo_step cfg now)
              (sweep_mid cfg now s, s.nextInvoice, [])).1 lot.id
          - active_count (l1.foldl (promo_step cfg now)
              (sweep_mid cfg now s, s.nextInvoice, [])).1 lot.id)
      = promo_sel (sweep_mid cfg now s) lot.id (promo_need (sweep_mid cfg now s) lot) := by
    unfold promo_sel promo_need
    rw [hcanA, hpaidA, hactA]
  have hltA : active_count (l1.foldl (promo_step cfg now)
        (sweep_mid cfg now s, s.nextInvoice, [])).1 lot.id
      < lot.quantity - paid_count (l1.foldl (promo_step cfg now)
          (sweep_mid cfg now s, s.nextInvoice, [])).1 lot.id := by
    rw [hactA, hpaidA]
    exact hlt
  have hstep := promo_step_promotes cfg now
    (l1.foldl (promo_step cfg now) (sweep_mid cfg now s, s.nextInvoice, [])) lot hndA hfin hltA
  have hoffeq : ((advance_cascade cfg now s).1).offers
      = (s.lots.foldl (promo_step cfg now) (sweep_mid cfg now s, s.nextInvoice, [])).1 := rfl
  have heffeq : (advance_cascade cfg now s).2
      = remind_effs cfg now s.offers
        ++ (s.lots.foldl (promo_step cfg now) (sweep_mid cfg now s, s.nextInvoice, [])).2.2 :=
    rfl
  have hfoldeq : s.lots.foldl (promo_step cfg now) (sweep_mid cfg now s, s.nextInvoice, [])
      = l2.foldl (promo_step cfg now) (promo_step cfg now
          (l1.foldl (promo_step cfg now) (sweep_mid cfg now s, s.nextInvoice, [])) lot) := by
    rw [hsplit, List.foldl_append, List.foldl_cons]
  have hndstep : idsNodup (promo_step cfg now
      (l1.foldl (promo_step cfg now) (sweep_mid cfg now s, s.nextInvoice, [])) lot).1 := by
    unfold idsNodup
    rw [promo_step_ids]
    exact hndA
  refine ⟨?_, ?_, ?_, ?_, ?_⟩
  · intro o ho
    have hoA : o ∈ promo_sel (l1.foldl (promo_step cfg now)
        (sweep_mid cfg now s, s.nextInvoice, [])).1 lot.id
        (lot.quantity
          - paid_count (l1.foldl (promo_step cfg now)
              (sweep_mid cfg now s, s.nextInvoice, [])).1 lot.id
          - active_count (l1.foldl (promo_step cfg now)
              (sweep_mid cfg now s, s.nextInvoice, [])).1 lot.id) := by
      rw [hselA]
      exact ho
    have hlid : o.lotId = lot.id := (promo_sel_spec _ _ _ o ho).1
    rcases hstep.1 o hoA with ⟨⟨k, hk⟩, hnot⟩
    constructor
    · refine ⟨k, ?_⟩
      rw [hoffeq, hfoldeq]
      refine promo_fold_mem_fix_lot cfg now l2 _ ?_ hndstep hk
      intro m hm
      show m.id ≠ (promoteOne cfg now k o).lotId
      have : (promoteOne cfg now k o).lotId = o.lotId := rfl
      rw [this, hlid]
      exact hne2 m hm
    · rw [heffeq, hfoldeq]
      refine List.mem_append_right _ ?_
      exact promo_fold_effs_mono cfg now l2 _ hnot
  · intro o ho hns
    have hoA : o ∈ (l1.foldl (promo_step cfg now)
        (sweep_mid cfg now s, s.nextInvoice, [])).1 := by
      have : o ∈ offersOf (l1.foldl (promo_step cfg now)
          (sweep_mid cfg now s, s.nextInvoice, [])).1 lot.id := by
        rw [hoffA]
        exact ho
      exact List.mem_of_mem_filter this
    have hlid : o.lotId = lot.id := by
      have := List.of_mem_filter ho
      simpa using this
    have hnsA : o ∉ promo_sel (l1.foldl (promo_step cfg now)
        (sweep_mid cfg now s, s.nextInvoice, [])).1 lot.id
        (lot.quantity
          - paid_count (l1.foldl (promo_step cfg now)
              (sweep_mid cfg now s, s.nextInvoice, [])).1 lot.id
          - active_count (l1.foldl (promo_step cfg now)
              (sweep_mid cfg now s, s.nextInvoice, [])).1 lot.id) := by
      rw [hselA]
      exact hns
    have hmemstep := hstep.2 o hoA hnsA
    rw [hoffeq, hfoldeq]
    refine promo_fold_mem_fix_lot cfg now l2 _ ?_ hndstep hmemstep
    intro m hm
    rw [hlid]
    exact hne2 m hm
  · exact promo_sel_length ..
  · intro o ho
    exact promo_sel_spec _ _ _ o ho
  · exact promo_sel_min (sweep_mid cfg now s) lot.id (promo_need (sweep_mid cfg now s) lot)

/-- FINISHED lot for the reminder-flag counterexample. -/
def lotC7 : Lot := Lot.mk 1 60 15 1 LotStatus.FINISHED 250 none none

/-- A CANCELED reserve candidate whose reminder flag is set. -/
def offC7 : Offer := Offer.mk 1 1 100 250 1 OfferStatus.CANCELED none none none none true

/-- State for the C7 counterexample. -/
def stC7 : St := St.mk [lotC7] [] [offC7] 2 9

/-- C7 counterexample: the sweep promotes the CANCELED offer to OFFERED
but leaves `reminder_sent = true` — the claimed "reminder_sent reset to
false" write does not exist in the promotion loop. -/
theorem C7_counterexample :
    offC7.status = OfferStatus.CANCELED ∧ offC7.reminderSent = true
    ∧ (((advance_cascade cfgW 0 stC7).1).offers.find? (fun o => o.id == 1)).map
        (fun o => (o.status, o.reminderSent)) = some (OfferStatus.OFFERED, true) := by
  decide

/-- FINISHED lot, quantity 2, for the promotion-correctness witness. -/
def lotC7w : Lot := Lot.mk 1 61 15 2 LotStatus.FINISHED 300 none none

/-- Rank-1 offer, deadline passed at t=10. -/
def offC7w1 : Offer :=
  Offer.mk 1 1 101 300 1 OfferStatus.OFFERED (some 5) (some 11) (some 11) none true

/-- Rank-2 offer, deadline passed at t=10. -/
def offC7w2 : Offer :=
  Offer.mk 2 1 102 290 2 OfferStatus.OFFERED (some 5) (some 12) (some 12) none true

/-- Rank-3 reserve candidate. -/
def offC7w3 : Offer := Offer.mk 3 1 103 280 3 OfferStatus.CANCELED none none none none false

/-- Rank-4 reserve candidate. -/
def offC7w4 : Offer := Offer.mk 4 1 104 270 4 OfferStatus.CANCELED none none none none false

/-- The spec's P6 scenario: quantity 2, ranks 1 and 2 expiring, ranks 3
and 4 waiting in CANCELED. -/
def stC7w : St := St.mk [lotC7w] [] [offC7w1, offC7w2, offC7w3, offC7w4] 5 13

/-- Witness for the amended C7 on the P6 scenario at t=10. -/
theorem C7_witness :
    (∀ o ∈ promo_sel (sweep_mid cfgW 10 stC7w) lotC7w.id
        (promo_need (sweep_mid cfgW 10 stC7w) lotC7w),
      (∃ k, promoteOne cfgW 10 k o ∈ ((advance_cascade cfgW 10 stC7w).1).offers)
      ∧ Eff.notify o.userTgId ∈ (advance_cascade cfgW 10 stC7w).2)
    ∧ (∀ o ∈ offersOf (sweep_mid cfgW 10 stC7w) lotC7w.id,
        o ∉ promo_sel (sweep_mid cfgW 10 stC7w) lotC7w.id
          (promo_need (sweep_mid cfgW 10 stC7w) lotC7w) →
        o ∈ ((advance_cascade cfgW 10 stC7w).1).offers)
    ∧ (promo_sel (sweep_mid cfgW 10 stC7w) lotC7w.id
        (promo_need (sweep_mid cfgW 10 stC7w) lotC7w)).length
        = min (promo_need (sweep_mid cfgW 10 stC7w) lotC7w)
            (canceled_of (sweep_mid cfgW 10 stC7w) lotC7w.id).length
    ∧ (∀ o ∈ promo_sel (sweep_mid cfgW 10 stC7w) lotC7w.id
        (promo_need (sweep_mid cfgW 10 stC7w) lotC7w),
        o.lotId = lotC7w.id ∧ o.status = OfferStatus.CANCELED)
    ∧ (∀ o ∈ promo_sel (sweep_mid cfgW 10 stC7w) lotC7w.id
        (promo_need (sweep_mid cfgW 10 stC7w) lotC7w),
        ∀ o' ∈ canceled_of (sweep_mid cfgW 10 stC7w) lotC7w.id,
          o' ∉ promo_sel (sweep_mid cfgW 10 stC7w) lotC7w.id
            (promo_need (sweep_mid cfgW 10 stC7w) lotC7w) →
          o.rankIndex ≤ o'.rankIndex) :=
  C7_amended cfgW 10 stC7w lotC7w
    (by show (stC7w.offers.map (fun o => o.id)).Nodup; decide)
    (by decide) (by decide) (by decide) (by decide)

/-! ### Ranking and cascade-creation lemmas -/

theorem rankingOf_fst_perm (bids : List Bid) :
    ((rankingOf bids).map Prod.fst).Perm ((bids.map (fun b => b.userTgId)).dedup) := by
  unfold rankingOf
  have h1 := (sortDesc_perm (((bids.map (fun b => b.userTgId)).dedup).map
    (fun u => (u, maxBidFor bids u)))).map Prod.fst
  refine h1.trans ?_
  rw [List.map_map]
  have : (Prod.fst ∘ fun u => (u, maxBidFor bids u)) = id := rfl
  rw [this, List.map_id]

theorem rankingOf_fst_nodup (bids : List Bid) : ((rankingOf bids).map Prod.fst).Nodup :=
  (rankingOf_fst_perm bids).symm.nodup_iff.mp (List.nodup_dedup _)

theorem rankingOf_fst_mem (bids : List Bid) (u : Nat) :
    u ∈ (rankingOf bids).map Prod.fst ↔ ∃ b ∈ bids, b.userTgId = u := by
  rw [(rankingOf_fst_perm bids).mem_iff, List.mem_dedup, List.mem_map]

theorem rankingOf_snd (bids : List Bid) :
    ∀ p ∈ rankingOf bids, p.2 = maxBidFor bids p.1 := by
  intro p hp
  unfold rankingOf at hp
  have hp1 := (sortDesc_perm _).mem_iff.mp hp
  rcases List.mem_map.mp hp1 with ⟨u, _, rfl⟩
  rfl

theorem rankingOf_sorted (bids : List Bid) :
    (rankingOf bids).Pairwise (fun a b => b.2 ≤ a.2) :=
  sortDesc_sorted _

theorem mkCascade_ranks (cfg : Cfg) (now lid qty : Nat) (l : List (Nat × Nat)) :
    ∀ rank oid inv,
    (mkCascade cfg now lid qty rank oid inv l).1.map (fun o => o.rankIndex)
      = List.range' rank l.length := by
  induction l with
  | nil =>
    intro rank oid inv
    rfl
  | cons p rest ih =>
    intro rank oid inv
    rcases p with ⟨u, mx⟩
    unfold mkCascade
    split <;> simp only [List.map_cons, List.length_cons, List.range'_succ] <;>
      rw [ih (rank + 1)]

theorem mkCascade_users (cfg : Cfg) (now lid qty : Nat) (l : List (Nat × Nat)) :
    ∀ rank oid inv,
    (mkCascade cfg now lid qty rank oid inv l).1.map (fun o => o.userTgId)
      = l.map Prod.fst := by
  induction l with
  | nil =>
    intro rank oid inv
    rfl
  | cons p rest ih =>
    intro rank oid inv
    rcases p with ⟨u, mx⟩
    unfold mkCascade
    split <;> simp only [List.map_cons] <;> rw [ih (rank + 1)]

theorem mkCascade_prices (cfg : Cfg) (now lid qty : Nat) (l : List (Nat × Nat)) :
    ∀ rank oid inv,
    (mkCascade cfg now lid qty rank oid inv l).1.map (fun o => o.offeredPrice)
      = l.map Prod.snd := by
  induction l with
  | nil =>
    intro rank oid inv
    rfl
  | cons p rest ih =>
    intro rank oid inv
    rcases p with ⟨u, mx⟩
    unfold mkCascade
    split <;> simp only [List.map_cons] <;> rw [ih (rank + 1)]

theorem mkCascade_pairs (cfg : Cfg) (now lid qty : Nat) (l : List (Nat × Nat)) :
    ∀ rank oid inv,
    ∀ o ∈ (mkCascade cfg now lid qty rank oid inv l).1, (o.userTgId, o.offeredPrice) ∈ l := by
  induction l with
  | nil =>
    intro rank oid inv o ho
    cases ho
  | cons p rest ih =>
    intro rank oid inv o ho
    rcases p with ⟨u, mx⟩
    unfold mkCascade at ho
    split at ho <;> rcases List.mem_cons.mp ho with h | h
    · rw [h]
      exact List.mem_cons_self ..
    · exact List.mem_cons_of_mem _ (ih (rank + 1) (oid + 1) (inv + 1) o h)
    · rw [h]
      exact List.mem_cons_self ..
    · exact List.mem_cons_of_mem _ (ih (rank + 1) (oid + 1) inv o h)

theorem mkCascade_lotId (cfg : Cfg) (now lid qty : Nat) (l : List (Nat × Nat)) :
    ∀ rank oid inv,
    ∀ o ∈ (mkCascade cfg now lid qty rank oid inv l).1, o.lotId = lid := by
  induction l with
  | nil =>
    intro rank oid inv o ho
    cases ho
  | cons p rest ih =>
    intro rank oid inv o ho
    rcases p with ⟨u, mx⟩
    unfold mkCascade at ho
    split at ho <;> rcases List.mem_cons.mp ho with h | h
    · rw [h]
    · exact ih (rank + 1) (oid + 1) (inv + 1) o h
    · rw [h]
    · exact ih (rank + 1) (oid + 1) inv o h

theorem mkCascade_statuses (cfg : Cfg) (now lid qty : Nat) (l : List (Nat × Nat)) :
    ∀ rank oid inv,
    ∀ o ∈ (mkCascade cfg now lid qty rank oid inv l).1,
      (o.rankIndex ≤ qty → o.status = OfferStatus.OFFERED
        ∧ o.holdUntil = some (now + cfg.holdDur) ∧ o.invoiceId.isSome = true)
      ∧ (qty < o.rankIndex → o.status = OfferStatus.CANCELED
        ∧ o.holdUntil = none ∧ o.invoiceId = none) := by
  induction l with
  | nil =>
    intro rank oid inv o ho
    cases ho
  | cons p rest ih =>
    intro rank oid inv o ho
    rcases p with ⟨u, mx⟩
    unfold mkCascade at ho
    split at ho
    · rename_i hle
      rcases List.mem_cons.mp ho with h | h
      · subst h
        exact ⟨fun _ => ⟨rfl, rfl, rfl⟩, fun hgt => absurd hle (by simpa using hgt)⟩
      · exact ih (rank + 1) (oid + 1) (inv + 1) o h
    · rename_i hgt
      rcases List.mem_cons.mp ho with h | h
      · subst h
        exact ⟨fun hle => absurd hle (by simpa using hgt), fun _ => ⟨rfl, rfl, rfl⟩⟩
      · exact ih (rank + 1) (oid + 1) inv o h

/-- C9: StartCascade rank assignment.  On an auction-mode lot with at
least one bid and no pre-existing offers, the cascade creates one offer
per distinct bidder with ranks 1..N (no gaps, no duplicates), at each
bidder's best (maximum) bid amount, in descending best-amount order (ties
broken by the model's fixed stable order); ranks up to the quantity are
OFFERED with `hold_until = now + HOLD_DURATION` and an invoice, later
ranks are CANCELED with no deadline and no invoice. -/
theorem C9_start_cascade_ranking (cfg : Cfg) (now lid : Nat) (s : St) (lot : Lot)
    (hfind : find_lot s lid = some lot) (hauction : lot.minStep ≠ 0)
    (hrk : rankingOf (bidsOf s lid) ≠ [])
    (hnone : ∀ o ∈ s.offers, o.lotId ≠ lid) :
    (offersOf ((start_cascade cfg now lid s).1).offers lid).map (fun o => o.rankIndex)
        = List.range' 1 (rankingOf (bidsOf s lid)).length
    ∧ (offersOf ((start_cascade cfg now lid s).1).offers lid).map (fun o => o.userTgId)
        = (rankingOf (bidsOf s lid)).map Prod.fst
    ∧ ((offersOf ((start_cascade cfg now lid s).1).offers lid).map
        (fun o => o.userTgId)).Nodup
    ∧ (∀ u, u ∈ (offersOf ((start_cascade cfg now lid s).1).offers lid).map
          (fun o => o.userTgId)
        ↔ ∃ b ∈ s.bids, b.lotId = lid ∧ b.userTgId = u)
    ∧ (∀ o ∈ offersOf ((start_cascade cfg now lid s).1).offers lid,
        o.offeredPrice = maxBidFor (bidsOf s lid) o.userTgId)
    ∧ (offersOf ((start_cascade cfg now lid s).1).offers lid).Pairwise
        (fun a b => b.offeredPrice ≤ a.offeredPrice)
    ∧ (∀ o ∈ offersOf ((start_cascade cfg now lid s).1).offers lid,
        (o.rankIndex ≤ lot.quantity → o.status = OfferStatus.OFFERED
          ∧ o.holdUntil = some (now + cfg.holdDur) ∧ o.invoiceId.isSome = true)
        ∧ (lot.quantity < o.rankIndex → o.status = OfferStatus.CANCELED
          ∧ o.holdUntil = none ∧ o.invoiceId = none)) := by
  have hres : offersOf ((start_cascade cfg now lid s).1).offers lid
      = (mkCascade cfg now lid lot.quantity 1 s.nextOfferId s.nextInvoice
          (rankingOf (bidsOf s lid))).1 := by
    unfold start_cascade
    rw [hfind]
    dsimp only
    rw [if_neg (by simp [hauction])]
    split
    · rename_i heq
      exact absurd heq hrk
    · dsimp only
      unfold offersOf
      rw [List.filter_append]
      have h1 : s.offers.filter (fun o => o.lotId == lid) = [] := by
        rw [List.filter_eq_nil_iff]
        intro o ho
        simp [hnone o ho]
      rw [h1, List.nil_append]
      refine List.filter_eq_self.mpr (fun o ho => ?_)
      simp [mkCascade_lotId cfg now lid lot.quantity _ 1 s.nextOfferId s.nextInvoice o ho]
  refine ⟨?_, ?_, ?_, ?_, ?_, ?_, ?_⟩
  · rw [hres, mkCascade_ranks]
  · rw [hres, mkCascade_users]
  · rw [hres, mkCascade_users]
    exact rankingOf_fst_nodup _
  · intro u
    rw [hres, mkCascade_users, rankingOf_fst_mem]
    constructor
    · rintro ⟨b, hb, hbu⟩
      have hb2 := List.mem_filter.mp hb
      exact ⟨b, hb2.1, by simpa using hb2.2, hbu⟩
    · rintro ⟨b, hb, hbl, hbu⟩
      exact ⟨b, List.mem_filter.mpr ⟨hb, by simp [hbl]⟩, hbu⟩
  · intro o ho
    rw [hres] at ho
    have hp := mkCascade_pairs cfg now lid lot.quantity _ 1 s.nextOfferId s.nextInvoice o ho
    exact rankingOf_snd (bidsOf s lid) _ hp
  · rw [hres]
    have h6 : ((mkCascade cfg now lid lot.quantity 1 s.nextOfferId s.nextInvoice
        (rankingOf (bidsOf s lid))).1.map (fun o => o.offeredPrice)).Pairwise
        (fun x y => y ≤ x) := by
      rw [mkCascade_prices]
      exact List.pairwise_map.mpr (rankingOf_sorted _)
    exact List.pairwise_map.mp h6
  · intro o ho
    rw [hres] at ho
    exact mkCascade_statuses cfg now lid lot.quantity _ 1 s.nextOfferId s.nextInvoice o ho

/-- Auction lot for the C9 witness: quantity 1, two bidders. -/
def lotC9 : Lot := Lot.mk 1 70 15 1 LotStatus.ACTIVE 250 none none

/-- State for the C9 witness: A bids 200, B bids 250, no offers yet. -/
def stC9 : St := St.mk [lotC9] [Bid.mk 1 1 100 200, Bid.mk 2 1 200 250] [] 1 50

/-- Witness for C9 on the spec's two-bidder scenario. -/
theorem C9_witness :
    (offersOf ((start_cascade cfgW 0 1 stC9).1).offers 1).map (fun o => o.rankIndex)
        = List.range' 1 (rankingOf (bidsOf stC9 1)).length
    ∧ (offersOf ((start_cascade cfgW 0 1 stC9).1).offers 1).map (fun o => o.userTgId)
        = (rankingOf (bidsOf stC9 1)).map Prod.fst
    ∧ ((offersOf ((start_cascade cfgW 0 1 stC9).1).offers 1).map
        (fun o => o.userTgId)).Nodup
    ∧ (∀ u, u ∈ (offersOf ((start_cascade cfgW 0 1 stC9).1).offers 1).map
          (fun o => o.userTgId)
        ↔ ∃ b ∈ stC9.bids, b.lotId = 1 ∧ b.userTgId = u)
    ∧ (∀ o ∈ offersOf ((start_cascade cfgW 0 1 stC9).1).offers 1,
        o.offeredPrice = maxBidFor (bidsOf stC9 1) o.userTgId)
    ∧ (offersOf ((start_cascade cfgW 0 1 stC9).1).offers 1).Pairwise
        (fun a b => b.offeredPrice ≤ a.offeredPrice)
    ∧ (∀ o ∈ offersOf ((start_cascade cfgW 0 1 stC9).1).offers 1,
        (o.rankIndex ≤ lotC9.quantity → o.status = OfferStatus.OFFERED
          ∧ o.holdUntil = some (0 + cfgW.holdDur) ∧ o.invoiceId.isSome = true)
        ∧ (lotC9.quantity < o.rankIndex → o.status = OfferStatus.CANCELED
          ∧ o.holdUntil = none ∧ o.invoiceId = none)) :=
  C9_start_cascade_ranking cfgW 0 1 stC9 lotC9 rfl (by decide) (by decide)
    (by intro o ho; cases ho)

/-- The invoice overwrite performed when a sale intent reuses an offer. -/
def invUpd (inv : Nat) (o : Offer) : Offer :=
  { o with invoiceId := some inv, invoiceUrl := some inv }

/-- C10: sale purchase-intent reuse.  When the lot is an available
fixed-price lot (ACTIVE, min_step 0, PAID count below quantity) and the
requesting user already holds an OFFERED/POSTPONED offer on it, no new
offer row is created and no offer id is allocated: the existing row is
reused with its invoice reference and invoice url overwritten by a freshly
created invoice, and the fresh invoice is requested for that offer. -/
theorem C10_sale_reuse (cfg : Cfg) (now user pub : Nat) (s : St) (lot : Lot) (ex : Offer)
    (hfind : find_lot_pub s pub = some lot)
    (hactive : lot.status = LotStatus.ACTIVE) (hsale : lot.minStep = 0)
    (hnotsold : paid_count s.offers lot.id < lot.quantity)
    (hex : s.offers.find? (fun o => o.lotId == lot.id && o.userTgId == user
        && statusActive o.status) = some ex) :
    (start_entry_sale cfg now user pub s).1.offers
        = updateOffers s.offers ex.id (invUpd s.nextInvoice)
    ∧ (start_entry_sale cfg now user pub s).1.offers.length = s.offers.length
    ∧ (start_entry_sale cfg now user pub s).1.nextOfferId = s.nextOfferId
    ∧ (start_entry_sale cfg now user pub s).1.nextInvoice = s.nextInvoice + 1
    ∧ Eff.invoice ex.id s.nextInvoice ∈ (start_entry_sale cfg now user pub s).2 := by
  unfold start_entry_sale
  rw [hfind]
  dsimp only
  have hg : (lot.status != LotStatus.ACTIVE || lot.minStep != 0) = false := by
    simp [hactive, hsale]
  rw [hg]
  simp only [Bool.false_eq_true, if_false]
  rw [if_neg (Nat.not_le.mpr hnotsold), hex]
  dsimp only
  refine ⟨rfl, ?_, rfl, rfl, ?_⟩
  · unfold updateOffers
    exact List.length_map ..
  · exact List.mem_cons_self ..

/-- Fixed-price lot for the C10 witness: quantity 2, ACTIVE. -/
def lotC10 : Lot := Lot.mk 1 80 0 2 LotStatus.ACTIVE 150 none none

/-- Existing OFFERED claim of user 100 on `lotC10`, invoice 30. -/
def offC10 : Offer :=
  Offer.mk 1 1 100 150 1 OfferStatus.OFFERED (some 24) (some 30) (some 30) none false

/-- State for the C10 witness. -/
def stC10 : St := St.mk [lotC10] [] [offC10] 2 31

/-- Witness for C10: user 100's repeated intent reuses offer 1 and
overwrites its invoice with the fresh invoice 31. -/
theorem C10_witness :
    (start_entry_sale cfgW 0 100 80 stC10).1.offers
        = updateOffers stC10.offers offC10.id (invUpd stC10.nextInvoice)
    ∧ (start_entry_sale cfgW 0 100 80 stC10).1.offers.length = stC10.offers.length
    ∧ (start_entry_sale cfgW 0 100 80 stC10).1.nextOfferId = stC10.nextOfferId
    ∧ (start_entry_sale cfgW 0 100 80 stC10).1.nextInvoice = stC10.nextInvoice + 1
    ∧ Eff.invoice offC10.id stC10.nextInvoice ∈ (start_entry_sale cfgW 0 100 80 stC10).2 :=
  C10_sale_reuse cfgW 0 100 80 stC10 lotC10 offC10 rfl rfl rfl (by decide) rfl
